import Mathlib

/-!
Shallow embedding of the incremental request tracker
(`src/packages/core/core/src/RequestTracker.js`) of this repository:
the `RequestGraph` invalidation graph, its FS-event responder, and the
`RequestTracker` runner.  JavaScript exceptions are modelled with an
explicit error component (state is always returned, as a thrown JS
exception leaves the mutated heap in place), and unbounded recursion in
the source is instrumented with an explicit fuel parameter (`JsError.outOfFuel`
signals fuel exhaustion; it has no counterpart in the source, whose
corresponding recursions simply do not terminate).
-/

deriving instance DecidableEq for Except

namespace ParcelTracker

/-- Opaque JS values (request inputs, results, option values). -/
inductive JsVal where
  | undef : JsVal
  | num (n : Int) : JsVal
  | str (s : String) : JsVal
deriving DecidableEq

/-- JS exceptions thrown by the tracker code: failed `invariant(...)`,
failed `nullthrows(...)`, the `Invalid invalidation` error, a request body's
domain failure, the abort signal, and fuel exhaustion (instrumentation only). -/
inductive JsError where
  | invariantViolation : JsError
  | nullthrowsFailed : JsError
  | invalidInvalidation : JsError
  | requestFailed : JsError
  | aborted : JsError
  | outOfFuel : JsError
deriving DecidableEq

/-- The stored request record `{id, type, input, result?}` (`StoredRequest`). -/
structure StoredRequest where
  id : String
  rtype : String
  input : JsVal
  result : JsVal
deriving DecidableEq

/-- The tagged node variants of the request graph (`RequestGraphNode`). -/
inductive RGNode where
  | request (value : StoredRequest) : RGNode
  | file (filePath : String) : RGNode
  | glob (pattern : String) : RGNode
  | extensionlessFile (filePath : String) (extensions : List String) : RGNode
  | fileName (name : String) : RGNode
  | env (key : String) (value : String) : RGNode
  | option (key : String) (hash : String) : RGNode
deriving DecidableEq

/-- Id of an `ExtensionlessFile` node (`extensionlessFileNodeId`). -/
def extensionlessFileNodeId (filePath : String) : String :=
  "extensionless_file:" ++ filePath

/-- Id derivation for each node variant (`nodeFromFilePath`, `nodeFromGlob`,
`nodeFromExtensionlessFilePath`, `nodeFromFileName`, `nodeFromRequest`,
`nodeFromEnv`, `nodeFromOption`). -/
def nodeId : RGNode → String
  | .request v => v.id
  | .file p => p
  | .glob g => g
  | .extensionlessFile p _ => extensionlessFileNodeId p
  | .fileName n => "file_name:" ++ n
  | .env k _ => "env:" ++ k
  | .option k _ => "option:" ++ k

/-- The edge labels (`RequestGraphEdgeType`). -/
inductive EdgeKind where
  | subrequest : EdgeKind
  | invalidatedByUpdate : EdgeKind
  | invalidatedByDelete : EdgeKind
  | invalidatedByCreate : EdgeKind
  | invalidatedByCreateAbove : EdgeKind
  | dirname : EdgeKind
deriving DecidableEq

/-- A directed labeled edge; `(src, dst, kind)` is a key (spec §3 invariant 5). -/
structure Edge where
  src : String
  dst : String
  kind : EdgeKind
deriving DecidableEq

/-- Insert into a JS `Set` of ids (adds only when absent, keeps order). -/
def setInsert (l : List String) (id : String) : List String :=
  if id ∈ l then l else l ++ [id]

/-- Delete from a JS `Set` of ids. -/
def setDelete (l : List String) (id : String) : List String :=
  l.filter (fun x => x ≠ id)

/-- JS `new Set([...a, ...b])`: union keeping first-occurrence order. -/
def jsSetUnion (a b : List String) : List String :=
  b.foldl setInsert a

/-- The `RequestGraph`: base graph (nodes + labeled edges) plus the auxiliary
index sets.  Nodes are stored with their derived id as key (the source keys
its node map by `node.id`). -/
structure RequestGraph where
  nodes : List RGNode
  edges : List Edge
  invalidNodeIds : List String
  incompleteNodeIds : List String
  globNodeIds : List String
  envNodeIds : List String
  optionNodeIds : List String
  unpredicatableNodeIds : List String
deriving DecidableEq

/-- The empty request graph. -/
def RequestGraph.empty : RequestGraph :=
  ⟨[], [], [], [], [], [], [], []⟩

namespace RequestGraph

/-- Modelled from the spec: the base `Graph` class (`src/packages/core/core/src/Graph.js`
is not in the source tree); `has_node` per spec §4.1. -/
def hasNode (g : RequestGraph) (id : String) : Bool :=
  g.nodes.any (fun n => nodeId n = id)

/-- Modelled from the spec: base `Graph` node lookup by id (spec §4.1). -/
def getNode (g : RequestGraph) (id : String) : Option RGNode :=
  g.nodes.find? (fun n => nodeId n = id)

/-- Modelled from the spec: base `Graph.addNode`; re-adding an existing id is a
no-op (spec §3 invariant 1). -/
def baseAddNode (g : RequestGraph) (n : RGNode) : RequestGraph :=
  if g.hasNode (nodeId n) then g else { g with nodes := g.nodes ++ [n] }

/-- Modelled from the spec: base `Graph.hasEdge(from, to, kind)` (spec §4.1). -/
def hasEdge (g : RequestGraph) (src dst : String) (kind : EdgeKind) : Bool :=
  g.edges.any (fun e => e = ⟨src, dst, kind⟩)

/-- Modelled from the spec: base `Graph.addEdge`; `(from, to, kind)` is a key,
so additions are idempotent (spec §3 invariant 5). -/
def addEdge (g : RequestGraph) (src dst : String) (kind : EdgeKind) : RequestGraph :=
  if g.hasEdge src dst kind then g
  else { g with edges := g.edges ++ [⟨src, dst, kind⟩] }

/-- Modelled from the spec: base `Graph.removeNode` removes the node and all
its incident edges (spec §4.1: `remove_node` cascades edges). -/
def baseRemoveNode (g : RequestGraph) (n : RGNode) : RequestGraph :=
  { g with
    nodes := g.nodes.filter (fun m => nodeId m ≠ nodeId n)
    edges := g.edges.filter (fun e => e.src ≠ nodeId n ∧ e.dst ≠ nodeId n) }

/-- Modelled from the spec: `getNodesConnectedTo(node, kind)` — the nodes with
an edge of the given kind INTO `node` (spec §4.1 "iterate nodes-to filtered by
kind").  Edge endpoints always have nodes in well-formed graphs; dangling
endpoints are skipped. -/
def getNodesConnectedTo (g : RequestGraph) (n : RGNode) (kind : EdgeKind) :
    List RGNode :=
  (g.edges.filter (fun e => e.kind = kind ∧ e.dst = nodeId n)).filterMap
    (fun e => g.getNode e.src)

/-- Modelled from the spec: `getNodesConnectedFrom(node, kind)` — the nodes with
an edge of the given kind OUT of `node`. -/
def getNodesConnectedFrom (g : RequestGraph) (n : RGNode) (kind : EdgeKind) :
    List RGNode :=
  (g.edges.filter (fun e => e.kind = kind ∧ e.src = nodeId n)).filterMap
    (fun e => g.getNode e.dst)

/-- Modelled from the spec: `replace_nodes_connected_to(node, new_targets, null, kind)`
diffs the current out-edges of the given kind against `new_targets`, removing
edges no longer present and adding the new ones (spec §4.1). -/
def replaceNodesConnectedTo (g : RequestGraph) (n : RGNode)
    (targets : List RGNode) (kind : EdgeKind) : RequestGraph :=
  (targets.map nodeId).foldl (fun acc t => acc.addEdge (nodeId n) t kind)
    { g with
      edges := g.edges.filter
        (fun e =>
          ¬(e.src = nodeId n ∧ e.kind = kind ∧ e.dst ∉ targets.map nodeId)) }

/-- `RequestGraph.addNode` override: registers glob/env/option ids in their
index sets before delegating to the base graph. -/
def addNode (g : RequestGraph) (n : RGNode) : RequestGraph :=
  let g1 :=
    if ¬g.hasNode (nodeId n) then
      match n with
      | .glob _ => { g with globNodeIds := setInsert g.globNodeIds (nodeId n) }
      | .env _ _ => { g with envNodeIds := setInsert g.envNodeIds (nodeId n) }
      | .option _ _ =>
          { g with optionNodeIds := setInsert g.optionNodeIds (nodeId n) }
      | _ => g
    else g
  g1.baseAddNode n

/-- `RequestGraph.removeNode` override: deletes the id from `invalidNodeIds`,
`incompleteNodeIds` and the glob/env/option index of the node's type, then
delegates to the base graph.  (The source does NOT touch
`unpredicatableNodeIds` here.) -/
def removeNode (g : RequestGraph) (n : RGNode) : RequestGraph :=
  let g1 := { g with
    invalidNodeIds := setDelete g.invalidNodeIds (nodeId n)
    incompleteNodeIds := setDelete g.incompleteNodeIds (nodeId n) }
  let g2 :=
    match n with
    | .glob _ => { g1 with globNodeIds := setDelete g1.globNodeIds (nodeId n) }
    | .env _ _ => { g1 with envNodeIds := setDelete g1.envNodeIds (nodeId n) }
    | .option _ _ =>
        { g1 with optionNodeIds := setDelete g1.optionNodeIds (nodeId n) }
    | _ => g1
  g2.baseRemoveNode n

/-- Modelled from the spec: base `Graph.removeById` (used by
`RequestTracker.removeRequest`); looks the node up and removes it. -/
def removeById (g : RequestGraph) (id : String) :
    RequestGraph × Except JsError Unit :=
  match g.getNode id with
  | some n => (g.removeNode n, .ok ())
  | none => (g, .error .nullthrowsFailed)

/-- `getRequestNode`: `nullthrows(this.getNode(id))` plus
`invariant(node.type === 'request')`. -/
def getRequestNode (g : RequestGraph) (id : String) :
    Except JsError StoredRequest :=
  match g.getNode id with
  | none => .error .nullthrowsFailed
  | some (.request v) => .ok v
  | some _ => .error .invariantViolation

/-- Models the in-place mutation of a stored node's value
(`node.value.extensions = ...`, `node.value.result = ...`): the node at the
given id is replaced, everything else is untouched. -/
def replaceNodeValue (g : RequestGraph) (id : String) (n : RGNode) :
    RequestGraph :=
  { g with nodes := g.nodes.map (fun m => if nodeId m = id then n else m) }

end RequestGraph

/-! ### Node.js `path` (posix) helpers used by the responder.
`String.splitOn`, `String.take` and `String.startsWith` do not reduce inside
the kernel, so the models below work on the underlying character lists. -/

/-- `split('/')` on a character list (keeps empty segments, like JS
`"…".split('/')`). -/
def splitSlashChars : List Char → List (List Char)
  | [] => [[]]
  | c :: cs =>
    match splitSlashChars cs with
    | [] => [[c]]
    | h :: t => if c = '/' then [] :: h :: t else (c :: h) :: t

/-- JS `p.split('/')`. -/
def splitSlash (p : String) : List String :=
  (splitSlashChars p.data).map (fun cs => String.mk cs)

/-- Character-list version of "starts with" (first argument: the candidate
leading part, second: the whole). -/
def jsStartsWithChars : List Char → List Char → Bool
  | [], _ => true
  | _ :: _, [] => false
  | a :: as, b :: bs => a = b && jsStartsWithChars as bs

/-- JS `s.startsWith(lead)`. -/
def jsStartsWith (s lead : String) : Bool :=
  jsStartsWithChars lead.data s.data

/-- Join path segments with `/`. -/
def joinSlash : List String → String
  | [] => ""
  | [x] => x
  | x :: y :: xs => x ++ "/" ++ joinSlash (y :: xs)

namespace JsPath

/-- Node.js `path.basename` (posix): last nonempty path segment. -/
def basename (p : String) : String :=
  ((((splitSlash p).filter (fun s => s ≠ "")).getLast?).getD "")

/-- Node.js `path.dirname` (posix). -/
def dirname (p : String) : String :=
  let abs := jsStartsWith p "/"
  let parts := (splitSlash p).filter (fun s => s ≠ "")
  match parts with
  | [] => if abs then "/" else "."
  | [_] => if abs then "/" else "."
  | _ => (if abs then "/" else "") ++ joinSlash parts.dropLast

/-- Node.js `path.extname` (posix): from the last `.` of the basename, unless
it is the leading character. -/
def extname (p : String) : String :=
  let b := basename p
  let idx := (b.data.enum).foldl
    (fun acc ic => if ic.2 = '.' then some ic.1 else acc) none
  match idx with
  | none => ""
  | some 0 => ""
  | some i => String.mk (b.data.drop i)

/-- JS `s.slice(0, -k)`.  NOTE the `k = 0` case: `slice(0, -0)` is
`slice(0, 0)`, the empty string — this is what
`filePath.slice(0, -extension.length)` evaluates to in the responder when the
created path has no extension. -/
def sliceToNegEnd (s : String) (k : Nat) : String :=
  if k = 0 then "" else String.mk (s.data.take (s.data.length - k))

end JsPath

/-- Modelled from the spec: `isDirectoryInside` from `@parcel/utils` (not in the
source tree); `is_directory_inside("/a/b/c/index.js", "/a/b") = true` (spec §8
S4): the first path lies inside the directory given second. -/
def isDirectoryInside (x dir : String) : Bool :=
  x = dir || jsStartsWith x (dir ++ "/")

/-- Modelled from the spec: `isGlobMatch` from `@parcel/utils` (not in the
source tree); the spec says only "if the glob matches `path`".  Modelled as
literal equality of pattern and path; no theorem in this development depends
on glob semantics (every state they touch has an empty glob index). -/
def isGlobMatch (path pattern : String) : Bool :=
  path = pattern

/-- Modelled from the spec: `hashFromOption` from `./utils` (not in the source
tree); a stable hash of the captured option value (spec §4.3, §9), modelled as
a canonical rendering. -/
def hashFromOption : JsVal → String
  | .undef => "undefined"
  | .num n => "num:" ++ toString n
  | .str s => "str:" ++ s

/-- Association-list lookup, modelling JS object property access (`env[key]`,
`options[key]`); `none` is `undefined`. -/
def alookup {α : Type} (l : List (String × α)) (k : String) : Option α :=
  (l.find? (fun kv => kv.1 = k)).map (fun kv => kv.2)

/-- JS `v || ''` on a string-or-undefined value: `undefined` and `''` are
falsy, any other string is returned unchanged. -/
def jsOrEmptyString : Option String → String
  | none => ""
  | some s => s

/-- JS strict inequality `env[key] !== capturedValue` where the left side may
be `undefined` and the right side is a string: `undefined !== s` is true. -/
def jsNeqOptStr : Option String → String → Bool
  | none, _ => true
  | some s, v => decide (s ≠ v)

namespace RequestGraph

/-- The transitive invalidation walk of `invalidateNode`, as a worklist
(depth-first, parents of a just-invalidated request are processed before the
rest): `invariant(node.type === 'request')`, then if the node is present mark
it invalid and recurse into its `subrequest` in-edges (its parents).  The
source carries NO visited set; `fuel` instruments the unbounded recursion. -/
def invalidateWork : Nat → RequestGraph → List RGNode →
    RequestGraph × Except JsError Unit
  | _, g, [] => (g, .ok ())
  | 0, g, _ :: _ => (g, .error .outOfFuel)
  | fuel + 1, g, n :: rest =>
    match n with
    | .request _ =>
      if g.hasNode (nodeId n) then
        let g1 := { g with invalidNodeIds := setInsert g.invalidNodeIds (nodeId n) }
        invalidateWork fuel g1 (g1.getNodesConnectedTo n .subrequest ++ rest)
      else invalidateWork fuel g rest
    | _ => (g, .error .invariantViolation)

/-- `RequestGraph.invalidateNode`. -/
def invalidateNode (fuel : Nat) (g : RequestGraph) (n : RGNode) :
    RequestGraph × Except JsError Unit :=
  invalidateWork fuel g [n]

/-- The loop body of `invalidateUnpredictableNodes` over a list of ids:
`nullthrows(this.getNode(nodeId))`, `invariant(type !== 'file' && type !== 'glob')`,
then `invalidateNode`. -/
def invalidateUnpredictableGo (fuel : Nat) (g : RequestGraph) :
    List String → RequestGraph × Except JsError Unit
  | [] => (g, .ok ())
  | id :: rest =>
    match g.getNode id with
    | none => (g, .error .nullthrowsFailed)
    | some n =>
      match n with
      | .file _ => (g, .error .invariantViolation)
      | .glob _ => (g, .error .invariantViolation)
      | _ =>
        match invalidateWork fuel g [n] with
        | (g1, .ok _) => invalidateUnpredictableGo fuel g1 rest
        | err => err

/-- `RequestGraph.invalidateUnpredictableNodes`. -/
def invalidateUnpredictableNodes (fuel : Nat) (g : RequestGraph) :
    RequestGraph × Except JsError Unit :=
  invalidateUnpredictableGo fuel g g.unpredicatableNodeIds

/-- The loop body of `invalidateEnvNodes` over a list of env-node ids. -/
def invalidateEnvGo (fuel : Nat) (envm : List (String × String))
    (g : RequestGraph) : List String → RequestGraph × Except JsError Unit
  | [] => (g, .ok ())
  | id :: rest =>
    match g.getNode id with
    | none => (g, .error .nullthrowsFailed)
    | some n =>
      match n with
      | .env key value =>
        if jsNeqOptStr (alookup envm key) value then
          match invalidateWork fuel g (g.getNodesConnectedTo n .invalidatedByUpdate) with
          | (g1, .ok _) => invalidateEnvGo fuel envm g1 rest
          | err => err
        else invalidateEnvGo fuel envm g rest
      | _ => (g, .error .invariantViolation)

/-- `RequestGraph.invalidateEnvNodes(env)`: for each Env node whose captured
value strictly differs from the current environment's value for its key,
invalidate every request on its incoming `invalidated_by_update` edges. -/
def invalidateEnvNodes (fuel : Nat) (g : RequestGraph)
    (envm : List (String × String)) : RequestGraph × Except JsError Unit :=
  invalidateEnvGo fuel envm g g.envNodeIds

/-- The loop body of `invalidateOptionNodes` over a list of option-node ids. -/
def invalidateOptionGo (fuel : Nat) (options : List (String × JsVal))
    (g : RequestGraph) : List String → RequestGraph × Except JsError Unit
  | [] => (g, .ok ())
  | id :: rest =>
    match g.getNode id with
    | none => (g, .error .nullthrowsFailed)
    | some n =>
      match n with
      | .option key hash =>
        if hashFromOption ((alookup options key).getD .undef) ≠ hash then
          match invalidateWork fuel g (g.getNodesConnectedTo n .invalidatedByUpdate) with
          | (g1, .ok _) => invalidateOptionGo fuel options g1 rest
          | err => err
        else invalidateOptionGo fuel options g rest
      | _ => (g, .error .invariantViolation)

/-- `RequestGraph.invalidateOptionNodes(options)`. -/
def invalidateOptionNodes (fuel : Nat) (g : RequestGraph)
    (options : List (String × JsVal)) : RequestGraph × Except JsError Unit :=
  invalidateOptionGo fuel options g g.optionNodeIds

/-- `RequestGraph.invalidateOnFileUpdate(requestId, filePath)`. -/
def invalidateOnFileUpdate (g : RequestGraph) (requestId filePath : String) :
    RequestGraph × Except JsError Unit :=
  match g.getRequestNode requestId with
  | .error e => (g, .error e)
  | .ok _ =>
    let fileNode := RGNode.file filePath
    let g1 := if ¬g.hasNode filePath then g.addNode fileNode else g
    let g2 :=
      if ¬g1.hasEdge requestId filePath .invalidatedByUpdate then
        g1.addEdge requestId filePath .invalidatedByUpdate
      else g1
    (g2, .ok ())

/-- `RequestGraph.invalidateOnFileDelete(requestId, filePath)`. -/
def invalidateOnFileDelete (g : RequestGraph) (requestId filePath : String) :
    RequestGraph × Except JsError Unit :=
  match g.getRequestNode requestId with
  | .error e => (g, .error e)
  | .ok _ =>
    let fileNode := RGNode.file filePath
    let g1 := if ¬g.hasNode filePath then g.addNode fileNode else g
    let g2 :=
      if ¬g1.hasEdge requestId filePath .invalidatedByDelete then
        g1.addEdge requestId filePath .invalidatedByDelete
      else g1
    (g2, .ok ())

end RequestGraph

/-- The three shapes of `FileCreateInvalidation` accepted by
`invalidateOnFileCreate` (`{glob}`, `{filePath, extensions}`,
`{fileName, aboveFilePath}`), plus the malformed shape that throws
`Invalid invalidation`. -/
inductive FileCreateInvalidation where
  | glob (pattern : String) : FileCreateInvalidation
  | extensions (filePath : String) (extensions : List String) : FileCreateInvalidation
  | fileNameAbove (fileName : String) (aboveFilePath : String) : FileCreateInvalidation
  | malformed : FileCreateInvalidation
deriving DecidableEq

namespace RequestGraph

/-- The FileName chain builder in `invalidateOnFileCreate`'s
`{fileName, aboveFilePath}` branch: for each part of
`fileName.split('/').reverse()` add a FileName node and (when a previous part
exists) a `dirname` edge from the previous part's node to this part's node;
returns the id of the last FileName node. -/
def fileNameChainGo (g : RequestGraph) (last : Option String) :
    List String → RequestGraph × Option String
  | [] => (g, last)
  | part :: rest =>
    let fn := RGNode.fileName part
    let g1 := if ¬g.hasNode (nodeId fn) then g.addNode fn else g
    let g2 :=
      match last with
      | some lid =>
        if ¬g1.hasEdge lid (nodeId fn) .dirname then
          g1.addEdge lid (nodeId fn) .dirname
        else g1
      | none => g1
    fileNameChainGo g2 (some (nodeId fn)) rest

/-- The common tail of `invalidateOnFileCreate`: ensure the computed node
exists, then ensure the `invalidated_by_create` edge from the request. -/
def finishFileCreate (g : RequestGraph) (requestId : String) (node : RGNode) :
    RequestGraph × Except JsError Unit :=
  let g1 := if ¬g.hasNode (nodeId node) then g.addNode node else g
  let g2 :=
    if ¬g1.hasEdge requestId (nodeId node) .invalidatedByCreate then
      g1.addEdge requestId (nodeId node) .invalidatedByCreate
    else g1
  (g2, .ok ())

/-- `RequestGraph.invalidateOnFileCreate(requestId, input)`.  In the
`extensions` branch, when the ExtensionlessFile node already exists its
extension set is unioned in place with the new set before the edge is ensured.
In the `fileName/aboveFilePath` branch, note that the source checks
`hasEdge(last.id, node.id, 'invalidated_by_create_above')` but adds the edge as
`addEdge(node.id, last.id, ...)` — from the File to the last FileName node. -/
def invalidateOnFileCreate (g : RequestGraph) (requestId : String)
    (input : FileCreateInvalidation) : RequestGraph × Except JsError Unit :=
  match g.getRequestNode requestId with
  | .error e => (g, .error e)
  | .ok _ =>
    match input with
    | .glob pattern => g.finishFileCreate requestId (RGNode.glob pattern)
    | .extensions filePath exts =>
      let node := RGNode.extensionlessFile filePath exts
      if g.hasNode (nodeId node) then
        match g.getNode (nodeId node) with
        | some (.extensionlessFile fp0 old) =>
          let merged := RGNode.extensionlessFile fp0 (jsSetUnion old exts)
          let g1 := g.replaceNodeValue (nodeId node) merged
          g1.finishFileCreate requestId merged
        | _ => (g, .error .invariantViolation)
      else g.finishFileCreate requestId node
    | .fileNameAbove fileName aboveFilePath =>
      let parts := (splitSlash fileName).reverse
      let (g1, last) := fileNameChainGo g none parts
      let node := RGNode.file aboveFilePath
      let g2 := if ¬g1.hasNode aboveFilePath then g1.addNode node else g1
      let g3 :=
        match last with
        | some lid =>
          if ¬g2.hasEdge lid aboveFilePath .invalidatedByCreateAbove then
            g2.addEdge aboveFilePath lid .invalidatedByCreateAbove
          else g2
        | none => g2
      g3.finishFileCreate requestId node
    | .malformed => (g, .error .invalidInvalidation)

/-- `RequestGraph.invalidateOnStartup(requestId)`: record the request in
`unpredicatableNodeIds`. -/
def invalidateOnStartup (g : RequestGraph) (requestId : String) :
    RequestGraph × Except JsError Unit :=
  match g.getRequestNode requestId with
  | .error e => (g, .error e)
  | .ok _ =>
    ({ g with unpredicatableNodeIds := setInsert g.unpredicatableNodeIds requestId },
     .ok ())

/-- `RequestGraph.invalidateOnEnvChange(requestId, env, value)`. -/
def invalidateOnEnvChange (g : RequestGraph) (requestId envName value : String) :
    RequestGraph × Except JsError Unit :=
  match g.getRequestNode requestId with
  | .error e => (g, .error e)
  | .ok _ =>
    let envNode := RGNode.env envName value
    let g1 := if ¬g.hasNode (nodeId envNode) then g.addNode envNode else g
    let g2 :=
      if ¬g1.hasEdge requestId (nodeId envNode) .invalidatedByUpdate then
        g1.addEdge requestId (nodeId envNode) .invalidatedByUpdate
      else g1
    (g2, .ok ())

/-- `RequestGraph.invalidateOnOptionChange(requestId, option, value)`. -/
def invalidateOnOptionChange (g : RequestGraph) (requestId optionName : String)
    (value : JsVal) : RequestGraph × Except JsError Unit :=
  match g.getRequestNode requestId with
  | .error e => (g, .error e)
  | .ok _ =>
    let optionNode := RGNode.option optionName (hashFromOption value)
    let g1 := if ¬g.hasNode (nodeId optionNode) then g.addNode optionNode else g
    let g2 :=
      if ¬g1.hasEdge requestId (nodeId optionNode) .invalidatedByUpdate then
        g1.addEdge requestId (nodeId optionNode) .invalidatedByUpdate
      else g1
    (g2, .ok ())

/-- `RequestGraph.clearInvalidations(node)`: drop the id from
`unpredicatableNodeIds` and replace the `invalidated_by_update`,
`invalidated_by_delete` and `invalidated_by_create` out-edge sets with the
empty set. -/
def clearInvalidations (g : RequestGraph) (v : StoredRequest) : RequestGraph :=
  let node := RGNode.request v
  let g1 := { g with unpredicatableNodeIds := setDelete g.unpredicatableNodeIds v.id }
  let g2 := g1.replaceNodesConnectedTo node [] .invalidatedByUpdate
  let g3 := g2.replaceNodesConnectedTo node [] .invalidatedByDelete
  g3.replaceNodesConnectedTo node [] .invalidatedByCreate

/-- `RequestGraph.replaceSubrequests(requestId, subrequestNodes)`.  The
`if (!this.hasNode(requestId))` re-add in the source is dead code
(`getRequestNode` has already thrown when the node is absent) and is kept. -/
def replaceSubrequests (g : RequestGraph) (requestId : String)
    (subrequestNodes : List RGNode) : RequestGraph × Except JsError Unit :=
  match g.getRequestNode requestId with
  | .error e => (g, .error e)
  | .ok v =>
    let node := RGNode.request v
    let g1 := if ¬g.hasNode requestId then g.addNode node else g
    (g1.replaceNodesConnectedTo node subrequestNodes .subrequest, .ok ())

/-- The loop of `invalidateFileNameNode` over the File nodes reachable through
incoming `invalidated_by_create_above` edges: `invariant(type === 'file')`;
when the File's path lies inside the event's directory, invalidate every
request on the File's incoming `invalidated_by_create` edges. -/
def invalidateAboveGo (fuel : Nat) (dirname : String) :
    RequestGraph → List RGNode → RequestGraph × Except JsError Unit
  | g, [] => (g, .ok ())
  | g, a :: rest =>
    match a with
    | .file fp =>
      if isDirectoryInside fp dirname then
        match invalidateWork fuel g (g.getNodesConnectedTo a .invalidatedByCreate) with
        | (g1, .ok _) => invalidateAboveGo fuel dirname g1 rest
        | err => err
      else invalidateAboveGo fuel dirname g rest
    | _ => (g, .error .invariantViolation)

/-- `RequestGraph.invalidateFileNameNode(node, filePath)`.  NOTE two literal
properties of the source: the parent lookup uses the id string
`'file_name: ' + basename` — with a space after the colon, while FileName
node ids are built as `'file_name:' + name` — and the recursion guard checks
`hasEdge(parent.id, node.id, 'dirname')`, an edge from the parent to the
current node, while the chain builder adds `dirname` edges from the inner
part to the outer part. -/
def invalidateFileNameNode : Nat → RequestGraph → String → String →
    RequestGraph × Except JsError Unit
  | 0, g, _, _ => (g, .error .outOfFuel)
  | fuel + 1, g, name, filePath =>
    let dn := JsPath.dirname filePath
    let node := RGNode.fileName name
    let above := g.getNodesConnectedTo node .invalidatedByCreateAbove
    match invalidateAboveGo fuel dn g above with
    | (g1, .error e) => (g1, .error e)
    | (g1, .ok _) =>
      let bn := JsPath.basename dn
      match g1.getNode ("file_name: " ++ bn) with
      | some parent =>
        if g1.hasEdge (nodeId parent) (nodeId node) .dirname then
          match parent with
          | .fileName pname => invalidateFileNameNode fuel g1 pname dn
          | _ => (g1, .error .invariantViolation)
        else (g1, .ok ())
      | none => (g1, .ok ())

end RequestGraph

/-- A file-watcher event `{path, type}`. -/
inductive FsEventType where
  | create : FsEventType
  | update : FsEventType
  | delete : FsEventType
deriving DecidableEq

/-- A file-watcher event. -/
structure FsEvent where
  path : String
  etype : FsEventType
deriving DecidableEq

namespace RequestGraph

/-- The glob probe of the responder's create branch: iterate `globNodeIds`,
`invariant(globNode && globNode.type === 'glob')`, and on a match invalidate
the glob node's incoming `invalidated_by_create` requests. -/
def globGo (fuel : Nat) (filePath : String) :
    RequestGraph → List String → RequestGraph × Except JsError Unit
  | g, [] => (g, .ok ())
  | g, id :: rest =>
    match g.getNode id with
    | none => (g, .error .invariantViolation)
    | some n =>
      match n with
      | .glob pattern =>
        if isGlobMatch filePath pattern then
          match invalidateWork fuel g (g.getNodesConnectedTo n .invalidatedByCreate) with
          | (g1, .ok _) => globGo fuel filePath g1 rest
          | err => err
        else globGo fuel filePath g rest
      | _ => (g, .error .invariantViolation)

/-- Processing of one FS event by `respondToFSEvents`: a create event whose
path already has a graph node is folded back to an update (macOS quirk); an
actual create runs the extensionless probe, the FileName probe and the glob
probe in order; a delete on an existing node invalidates its
`invalidated_by_delete` requests. -/
def eventStep (fuel : Nat) (g : RequestGraph) (ev : FsEvent) :
    RequestGraph × Except JsError Unit :=
  let node := g.getNode ev.path
  if node.isSome ∧ (ev.etype = .create ∨ ev.etype = .update) then
    match node with
    | some n => invalidateWork fuel g (g.getNodesConnectedTo n .invalidatedByUpdate)
    | none => (g, .ok ())
  else if ev.etype = .create then
    let extension := JsPath.extname ev.path
    let stem := JsPath.sliceToNegEnd ev.path extension.length
    let step1 :=
      match g.getNode (extensionlessFileNodeId stem) with
      | some n =>
        match n with
        | .extensionlessFile _ exts =>
          if extension ∈ exts then
            invalidateWork fuel g (g.getNodesConnectedTo n .invalidatedByCreate)
          else (g, .ok ())
        | _ => (g, .ok ())
      | none => (g, .ok ())
    match step1 with
    | (g1, .error e) => (g1, .error e)
    | (g1, .ok _) =>
      let step2 :=
        match g1.getNode ("file_name:" ++ JsPath.basename ev.path) with
        | some (.fileName name) => invalidateFileNameNode fuel g1 name ev.path
        | _ => (g1, .ok ())
      match step2 with
      | (g2, .error e) => (g2, .error e)
      | (g2, .ok _) => globGo fuel ev.path g2 g2.globNodeIds
  else if node.isSome ∧ ev.etype = .delete then
    match node with
    | some n => invalidateWork fuel g (g.getNodesConnectedTo n .invalidatedByDelete)
    | none => (g, .ok ())
  else (g, .ok ())

/-- The event loop of `respondToFSEvents`: events in order, a thrown exception
aborts the remainder. -/
def eventsGo (fuel : Nat) :
    RequestGraph → List FsEvent → RequestGraph × Except JsError Unit
  | g, [] => (g, .ok ())
  | g, ev :: rest =>
    match eventStep fuel g ev with
    | (g1, .ok _) => eventsGo fuel g1 rest
    | err => err

/-- `RequestGraph.respondToFSEvents(events)`: process the batch, then return
`this.invalidNodeIds.size > 0` — computed on the FINAL state, regardless of
whether this call added anything to it. -/
def respondToFSEvents (fuel : Nat) (g : RequestGraph) (events : List FsEvent) :
    RequestGraph × Except JsError Bool :=
  match eventsGo fuel g events with
  | (g1, .ok _) => (g1, .ok (decide (g1.invalidNodeIds ≠ [])))
  | (g1, .error e) => (g1, .error e)

end RequestGraph

/-- The `RequestTracker`: the graph plus the read-only references captured at
construction (`options.env` and the top-level options as association lists,
and the abort signal's state). -/
structure Tracker where
  graph : RequestGraph
  optionsEnv : List (String × String)
  options : List (String × JsVal)
  signalAborted : Bool
deriving DecidableEq

/-- A fresh tracker over an empty graph. -/
def Tracker.mkEmpty (optionsEnv : List (String × String))
    (options : List (String × JsVal)) : Tracker :=
  ⟨RequestGraph.empty, optionsEnv, options, false⟩

namespace Tracker

/-- Run a graph-mutating operation against the tracker's graph. -/
def onGraph (t : Tracker)
    (f : RequestGraph → RequestGraph × Except JsError Unit) :
    Tracker × Except JsError Unit :=
  let (g, r) := f t.graph
  ({ t with graph := g }, r)

/-- `RequestTracker.startRequest(request)`: insert the node when absent, else
`clearInvalidations`; then add to `incompleteNodeIds` and remove from
`invalidNodeIds`.  A thrown `getRequestNode` aborts before the index updates. -/
def startRequest (t : Tracker) (request : StoredRequest) :
    Tracker × Except JsError Unit :=
  let step : RequestGraph × Except JsError Unit :=
    if ¬t.graph.hasNode request.id then
      (t.graph.addNode (RGNode.request request), .ok ())
    else
      match t.graph.getRequestNode request.id with
      | .error e => (t.graph, .error e)
      | .ok v => (t.graph.clearInvalidations v, .ok ())
  match step with
  | (g, .error e) => ({ t with graph := g }, .error e)
  | (g, .ok _) =>
    ({ t with graph :=
        { g with
          incompleteNodeIds := setInsert g.incompleteNodeIds request.id
          invalidNodeIds := setDelete g.invalidNodeIds request.id } },
     .ok ())

/-- `RequestTracker.removeRequest(id)`: `graph.removeById(id)`. -/
def removeRequest (t : Tracker) (id : String) : Tracker × Except JsError Unit :=
  t.onGraph (fun g => g.removeById id)

/-- `RequestTracker.storeResult(id, result)`: mutate the Request node's result
when the node exists and is a Request; otherwise do nothing. -/
def storeResult (t : Tracker) (id : String) (result : JsVal) : Tracker :=
  match t.graph.getNode id with
  | some (.request r) =>
    { t with graph :=
        t.graph.replaceNodeValue id (RGNode.request { r with result := result }) }
  | _ => t

/-- `RequestTracker.hasValidResult(id)`: node exists, id not invalid, id not
incomplete. -/
def hasValidResult (t : Tracker) (id : String) : Bool :=
  t.graph.hasNode id && decide (id ∉ t.graph.invalidNodeIds) &&
    decide (id ∉ t.graph.incompleteNodeIds)

/-- `RequestTracker.getRequestResult(id)`: `nullthrows` + request invariant,
then the stored result. -/
def getRequestResult (t : Tracker) (id : String) : Except JsError JsVal :=
  match t.graph.getNode id with
  | none => .error .nullthrowsFailed
  | some (.request r) => .ok r.result
  | some _ => .error .invariantViolation

/-- `RequestTracker.completeRequest(id)`: delete from both index sets. -/
def completeRequest (t : Tracker) (id : String) : Tracker :=
  { t with graph :=
      { t.graph with
        invalidNodeIds := setDelete t.graph.invalidNodeIds id
        incompleteNodeIds := setDelete t.graph.incompleteNodeIds id } }

/-- `RequestTracker.rejectRequest(id)`: delete from `incompleteNodeIds`; re-add
to `invalidNodeIds` when the node still exists. -/
def rejectRequest (t : Tracker) (id : String) : Tracker :=
  let g1 := { t.graph with
    incompleteNodeIds := setDelete t.graph.incompleteNodeIds id }
  if g1.hasNode id then
    { t with graph := { g1 with invalidNodeIds := setInsert g1.invalidNodeIds id } }
  else { t with graph := g1 }

/-- `RequestTracker.respondToFSEvents(events)`: delegate to the graph. -/
def respondToFSEvents (fuel : Nat) (t : Tracker) (events : List FsEvent) :
    Tracker × Except JsError Bool :=
  let (g, r) := t.graph.respondToFSEvents fuel events
  ({ t with graph := g }, r)

end Tracker

/-! ### The runner, with request bodies as a deep embedding

A request body is a list of `Action`s executed in order: the synchronous
RunAPI mutators, `api.runRequest` on a sub-request, and a domain failure.
On success the body returns the description's `retVal`. -/

mutual
/-- One step of a request body: a RunAPI call, a subrequest, or a failure. -/
inductive Action where
  | fileUpdate (p : String) : Action
  | fileDelete (p : String) : Action
  | fileCreate (input : FileCreateInvalidation) : Action
  | startup : Action
  | envChange (name : String) : Action
  | optionChange (name : String) : Action
  | storeRes (v : JsVal) : Action
  | runSub (sub : ReqDesc) : Action
  | throwErr : Action

/-- A request `{id, type, input, run}`: the body is the action list, and
`retVal` is what the body returns on success. -/
inductive ReqDesc where
  | mk (id : String) (rtype : String) (input : JsVal) (retVal : JsVal)
      (actions : List Action) : ReqDesc
end

/-- The id of a request description. -/
def ReqDesc.id : ReqDesc → String
  | .mk id _ _ _ _ => id

/-- The type tag of a request description. -/
def ReqDesc.rtype : ReqDesc → String
  | .mk _ rtype _ _ _ => rtype

/-- The input of a request description. -/
def ReqDesc.input : ReqDesc → JsVal
  | .mk _ _ input _ _ => input

/-- The success value of a request description. -/
def ReqDesc.retVal : ReqDesc → JsVal
  | .mk _ _ _ retVal _ => retVal

/-- The body of a request description. -/
def ReqDesc.actions : ReqDesc → List Action
  | .mk _ _ _ _ actions => actions

/-- Outcome of `runRequest`: final tracker, the ids recorded in the per-run
`subRequests` set, the result (or the propagated exception), and whether the
memoized early-return path was taken. -/
structure RunOut where
  tr : Tracker
  subs : List String
  res : Except JsError JsVal
  memoized : Bool

/-- The two mutually recursive entry points of the runner, merged into one
fuel-indexed function: running a request, and executing the remainder of a
body's action list (with the subrequest ids recorded so far). -/
inductive RunCall where
  | req (desc : ReqDesc) : RunCall
  | acts (rid : String) (items : List Action) (subs : List String) : RunCall

/-- The `finally` clause of `runRequest`:
`replaceSubrequests(id, [...subRequests].map(id => nullthrows(getNode(id))))` —
collect the recorded ids' nodes (first missing one throws), then replace the
`subrequest` out-edges. -/
def collectNodes (g : RequestGraph) : List String → Except JsError (List RGNode)
  | [] => .ok []
  | id :: rest =>
    match g.getNode id with
    | none => .error .nullthrowsFailed
    | some n => (collectNodes g rest).map (fun ns => n :: ns)

/-- Tracker form of the `finally` clause. -/
def Tracker.replaceSubrequestsByIds (t : Tracker) (id : String)
    (subs : List String) : Tracker × Except JsError Unit :=
  match collectNodes t.graph subs with
  | .error e => (t, .error e)
  | .ok ns => t.onGraph (fun g => g.replaceSubrequests id ns)

/-- `RequestTracker.runRequest(request)` and the body execution loop.
`.req`: memoized early return when `hasValidResult`; otherwise
`try { startRequest; run body; abort check; completeRequest }
catch { rejectRequest; rethrow } finally { replace subrequest edges }`.
`.acts`: execute the body's actions in order; `runSub` records the sub id in
the per-run set BEFORE running it recursively, and a sub's exception aborts
the rest of the body. -/
def runGo : Nat → Tracker → RunCall → RunOut
  | 0, t, _ => ⟨t, [], .error .outOfFuel, false⟩
  | fuel + 1, t, .req desc =>
    if t.hasValidResult desc.id then
      match t.getRequestResult desc.id with
      | .ok v => ⟨t, [], .ok v, true⟩
      | .error e => ⟨t, [], .error e, true⟩
    else
      let (t1, r1) := t.startRequest ⟨desc.id, desc.rtype, desc.input, .undef⟩
      let bodyOut : Tracker × List String × Except JsError JsVal :=
        match r1 with
        | .error e => (t1, [], .error e)
        | .ok _ =>
          let o := runGo fuel t1 (.acts desc.id desc.actions [])
          (o.tr, o.subs, o.res)
      match bodyOut with
      | (t2, subs, rbody) =>
        let afterCatch : Tracker × Except JsError JsVal :=
          match rbody with
          | .ok _ =>
            if t2.signalAborted then
              (t2.rejectRequest desc.id, .error .aborted)
            else (t2.completeRequest desc.id, .ok desc.retVal)
          | .error e => (t2.rejectRequest desc.id, .error e)
        match afterCatch with
        | (t3, r3) =>
          match t3.replaceSubrequestsByIds desc.id subs with
          | (t4, .ok _) => ⟨t4, subs, r3, false⟩
          | (t4, .error e) => ⟨t4, subs, .error e, false⟩
  | fuel + 1, t, .acts rid items subs =>
    match items with
    | [] => ⟨t, subs, .ok .undef, false⟩
    | a :: rest =>
      match a with
      | .fileUpdate p =>
        match t.onGraph (fun g => g.invalidateOnFileUpdate rid p) with
        | (t1, .ok _) => runGo fuel t1 (.acts rid rest subs)
        | (t1, .error e) => ⟨t1, subs, .error e, false⟩
      | .fileDelete p =>
        match t.onGraph (fun g => g.invalidateOnFileDelete rid p) with
        | (t1, .ok _) => runGo fuel t1 (.acts rid rest subs)
        | (t1, .error e) => ⟨t1, subs, .error e, false⟩
      | .fileCreate input =>
        match t.onGraph (fun g => g.invalidateOnFileCreate rid input) with
        | (t1, .ok _) => runGo fuel t1 (.acts rid rest subs)
        | (t1, .error e) => ⟨t1, subs, .error e, false⟩
      | .startup =>
        match t.onGraph (fun g => g.invalidateOnStartup rid) with
        | (t1, .ok _) => runGo fuel t1 (.acts rid rest subs)
        | (t1, .error e) => ⟨t1, subs, .error e, false⟩
      | .envChange name =>
        match t.onGraph (fun g =>
            g.invalidateOnEnvChange rid name
              (jsOrEmptyString (alookup t.optionsEnv name))) with
        | (t1, .ok _) => runGo fuel t1 (.acts rid rest subs)
        | (t1, .error e) => ⟨t1, subs, .error e, false⟩
      | .optionChange name =>
        match t.onGraph (fun g =>
            g.invalidateOnOptionChange rid name
              ((alookup t.options name).getD .undef)) with
        | (t1, .ok _) => runGo fuel t1 (.acts rid rest subs)
        | (t1, .error e) => ⟨t1, subs, .error e, false⟩
      | .storeRes v => runGo fuel (t.storeResult rid v) (.acts rid rest subs)
      | .runSub sub =>
        let subs1 := setInsert subs sub.id
        let o := runGo fuel t (.req sub)
        (match o.res with
         | .ok _ => runGo fuel o.tr (.acts rid rest subs1)
         | .error e => ⟨o.tr, subs1, .error e, false⟩)
      | .throwErr => ⟨t, subs, .error .requestFailed, false⟩

/-- `runRequest`, exposing the recorded subrequest ids and the memoized flag. -/
def runRequestAux (fuel : Nat) (t : Tracker) (desc : ReqDesc) : RunOut :=
  runGo fuel t (.req desc)

/-- `RequestTracker.runRequest(request)`. -/
def runRequest (fuel : Nat) (t : Tracker) (desc : ReqDesc) :
    Tracker × Except JsError JsVal :=
  let o := runRequestAux fuel t desc
  (o.tr, o.res)

/-- The `subrequest` out-edge TARGET ids of a request id. -/
def subrequestTargets (g : RequestGraph) (id : String) : List String :=
  (g.edges.filter (fun e => e.src = id ∧ e.kind = EdgeKind.subrequest)).map
    (fun e => e.dst)

/-! ### Concrete scenario states used by the theorems -/

/-- A fresh tracker with empty environment and options. -/
def emptyTracker : Tracker := Tracker.mkEmpty [] []

/-- C1: a request that declares `invalidateOnFileUpdate(p)` and returns `42`. -/
def c1Desc (rid p : String) : ReqDesc :=
  .mk rid "t" .undef (.num 42) [.fileUpdate p]

/-- C1: the graph family reached by running `c1Desc rid p` on a fresh tracker:
the request node, the File node, the `invalidated_by_update` edge; only the
invalid set varies under FS events. -/
def c1Graph (rid p : String) (inv : List String) : RequestGraph :=
  { nodes := [.request ⟨rid, "t", .undef, .undef⟩, .file p]
    edges := [⟨rid, p, .invalidatedByUpdate⟩]
    invalidNodeIds := inv
    incompleteNodeIds := []
    globNodeIds := []
    envNodeIds := []
    optionNodeIds := []
    unpredicatableNodeIds := [] }

/-- C1: the tracker wrapping `c1Graph`. -/
def c1Tracker (rid p : String) (inv : List String) : Tracker :=
  ⟨c1Graph rid p inv, [], [], false⟩

/-- C2: a child request whose body throws. -/
def c2C : ReqDesc := .mk "C" "t" .undef .undef [.throwErr]

/-- C2: a parent request whose body runs the child `C` (which fails). -/
def c2P : ReqDesc := .mk "P" "t" .undef .undef [.runSub c2C]

/-- C2: the outcome of running parent `P` on a fresh tracker. -/
def c2Run : RunOut := runRequestAux 9 emptyTracker c2P

/-- C3: a request declaring
`invalidateOnFileCreate({fileName: "d/n", aboveFilePath: "/a/x.js"})`. -/
def c3Desc : ReqDesc :=
  .mk "R3" "t" .undef (.num 1) [.fileCreate (.fileNameAbove "d/n" "/a/x.js")]

/-- C3: the tracker after the declaring run. -/
def c3Tracker : Tracker := (runRequestAux 9 emptyTracker c3Desc).tr

/-- C4: the removed request. -/
def c4Request : StoredRequest := ⟨"R4", "t", .undef, .undef⟩

/-- C4: start `R4`, register it via `invalidateOnStartup`, then `removeNode`. -/
def c4Graph : RequestGraph :=
  ((((Tracker.mkEmpty [] []).startRequest c4Request).1.graph.invalidateOnStartup
      "R4").1).removeNode (.request c4Request)

/-- C5: a state with one previously-invalid request (started then rejected). -/
def c5Tracker : Tracker :=
  Tracker.rejectRequest
    ((Tracker.mkEmpty [] []).startRequest ⟨"R5", "t", .undef, .undef⟩).1 "R5"

/-- C6: a tracker with one request currently incomplete. -/
def c6Tracker : Tracker :=
  ((Tracker.mkEmpty [] []).startRequest ⟨"R6", "t", .undef, .undef⟩).1

/-- C6: `invalidateNode` applied to the still-incomplete request. -/
def c6After : RequestGraph :=
  (RequestGraph.invalidateNode 2 c6Tracker.graph
    (.request ⟨"R6", "t", .undef, .undef⟩)).1

/-- C7: request records of the cyclic graph. -/
def c7Req (id : String) : StoredRequest := ⟨id, "t", .undef, .undef⟩

/-- C7: request node `A`. -/
def c7NodeA : RGNode := .request (c7Req "A")

/-- C7: request node `B`. -/
def c7NodeB : RGNode := .request (c7Req "B")

/-- C7: two requests with a cyclic `subrequest` relation (`A → B` and `B → A`),
parameterized by the invalid set (which is all the invalidation walk changes). -/
def c7Graph (inv : List String) : RequestGraph :=
  { nodes := [c7NodeA, c7NodeB]
    edges := [⟨"A", "B", .subrequest⟩, ⟨"B", "A", .subrequest⟩]
    invalidNodeIds := inv
    incompleteNodeIds := []
    globNodeIds := []
    envNodeIds := []
    optionNodeIds := []
    unpredicatableNodeIds := [] }

/-- C9: a request that declares `api.invalidateOnEnvChange(e)`. -/
def c9Desc (rid e : String) : ReqDesc :=
  .mk rid "t" .undef .undef [.envChange e]

/-- C9: the outcome of running `c9Desc rid e` on a fresh tracker whose
`options.env` is `envOpts`. -/
def c9Run (rid e : String) (envOpts : List (String × String)) : RunOut :=
  runRequestAux 3 (Tracker.mkEmpty envOpts []) (c9Desc rid e)

/-- C9: the tracker state after the declaring run: the request node, the Env
node with the captured value `""`, and the `invalidated_by_update` edge. -/
def c9Final (rid e : String) (envOpts : List (String × String)) : Tracker :=
  { graph := { nodes := [.request ⟨rid, "t", .undef, .undef⟩, .env e ""]
               edges := [⟨rid, "env:" ++ e, .invalidatedByUpdate⟩]
               invalidNodeIds := [], incompleteNodeIds := []
               globNodeIds := [], envNodeIds := ["env:" ++ e]
               optionNodeIds := [], unpredicatableNodeIds := [] }
    optionsEnv := envOpts, options := [], signalAborted := false }

/-- C1: the outcome of running `c1Desc rid p` on a fresh tracker. -/
def c1Run (rid p : String) : RunOut :=
  runRequestAux 3 emptyTracker (c1Desc rid p)

/-- C6 witness state: `startRequest` on a fresh tracker. -/
def c6StartTracker : Tracker × Except JsError Unit :=
  (Tracker.mkEmpty [] []).startRequest ⟨"W6", "t", .undef, .undef⟩

/-- C6 witness state: a request with a valid (memoized) result. -/
def c6ValidTracker : Tracker :=
  Tracker.completeRequest
    (((Tracker.mkEmpty [] []).startRequest ⟨"V6", "t", .undef, .undef⟩).1) "V6"

/-- C8 witness state: a tracker whose graph already holds an
ExtensionlessFile node for `/src/foo` with extension set `{.ts}`. -/
def c8Tracker : Tracker :=
  (runRequestAux 9 emptyTracker
    (ReqDesc.mk "R8" "t" .undef .undef
      [.fileCreate (.extensions "/src/foo" [".ts"])])).tr

/-- C10 witness state: a tracker with one request node `R10`. -/
def c10Tracker : Tracker :=
  ((Tracker.mkEmpty [] []).startRequest ⟨"R10", "t", .undef, .undef⟩).1

/-! ## Lemmas -/

theorem mem_setInsert {l : List String} {x y : String} :
    y ∈ setInsert l x ↔ y ∈ l ∨ y = x := by
  unfold setInsert
  split
  · rename_i h
    constructor
    · exact Or.inl
    · rintro (h1 | rfl)
      · exact h1
      · exact h
  · simp

theorem mem_setDelete {l : List String} {x y : String} :
    y ∈ setDelete l x ↔ y ∈ l ∧ y ≠ x := by
  simp [setDelete]

theorem mem_jsSetUnion :
    ∀ (b a : List String) (x : String), x ∈ jsSetUnion a b ↔ x ∈ a ∨ x ∈ b := by
  intro b
  induction b with
  | nil => intro a x; simp [jsSetUnion]
  | cons hd tl ih =>
    intro a x
    have : jsSetUnion a (hd :: tl) = jsSetUnion (setInsert a hd) tl := rfl
    rw [this, ih, mem_setInsert]
    simp only [List.mem_cons]
    tauto

theorem getNode_nodeId {g : RequestGraph} {id : String} {n : RGNode}
    (h : g.getNode id = some n) : nodeId n = id := by
  unfold RequestGraph.getNode at h
  have := List.find?_some h
  simpa using this

theorem hasNode_of_getNode {g : RequestGraph} {id : String} {n : RGNode}
    (h : g.getNode id = some n) : g.hasNode id = true := by
  unfold RequestGraph.getNode at h
  unfold RequestGraph.hasNode
  rw [List.any_eq_true]
  have h1 := List.find?_some h
  exact ⟨n, List.mem_of_find?_eq_some h, h1⟩

theorem hasEdge_iff {g : RequestGraph} {a b : String} {k : EdgeKind} :
    g.hasEdge a b k = true ↔ (⟨a, b, k⟩ : Edge) ∈ g.edges := by
  simp [RequestGraph.hasEdge, List.any_eq_true]

theorem mem_edges_addEdge {g : RequestGraph} {a b : String} {k : EdgeKind}
    {e : Edge} :
    e ∈ (g.addEdge a b k).edges ↔ e ∈ g.edges ∨ e = ⟨a, b, k⟩ := by
  unfold RequestGraph.addEdge
  split
  · rename_i h
    rw [hasEdge_iff] at h
    constructor
    · exact Or.inl
    · rintro (h1 | rfl)
      · exact h1
      · exact h
  · simp

theorem addEdge_preserves (g : RequestGraph) (a b : String) (k : EdgeKind) :
    (g.addEdge a b k).nodes = g.nodes ∧
    (g.addEdge a b k).invalidNodeIds = g.invalidNodeIds ∧
    (g.addEdge a b k).incompleteNodeIds = g.incompleteNodeIds ∧
    (g.addEdge a b k).globNodeIds = g.globNodeIds ∧
    (g.addEdge a b k).envNodeIds = g.envNodeIds ∧
    (g.addEdge a b k).optionNodeIds = g.optionNodeIds ∧
    (g.addEdge a b k).unpredicatableNodeIds = g.unpredicatableNodeIds := by
  unfold RequestGraph.addEdge
  split <;> simp

theorem foldl_addEdge_mem (nid : String) (k : EdgeKind) :
    ∀ (tids : List String) (g : RequestGraph) (e : Edge),
      e ∈ (tids.foldl (fun acc t => acc.addEdge nid t k) g).edges ↔
        e ∈ g.edges ∨ ∃ t ∈ tids, e = ⟨nid, t, k⟩ := by
  intro tids
  induction tids with
  | nil => simp
  | cons hd tl ih =>
    intro g e
    rw [List.foldl_cons, ih, mem_edges_addEdge]
    constructor
    · rintro ((h | rfl) | ⟨t, ht, rfl⟩)
      · exact Or.inl h
      · exact Or.inr ⟨hd, by simp⟩
      · exact Or.inr ⟨t, by simp [ht]⟩
    · rintro (h | ⟨t, ht, rfl⟩)
      · exact Or.inl (Or.inl h)
      · rcases List.mem_cons.mp ht with rfl | ht
        · exact Or.inl (Or.inr rfl)
        · exact Or.inr ⟨t, ht, rfl⟩

theorem foldl_addEdge_preserves (nid : String) (k : EdgeKind) :
    ∀ (tids : List String) (g : RequestGraph),
      (tids.foldl (fun acc t => acc.addEdge nid t k) g).nodes = g.nodes ∧
      (tids.foldl (fun acc t => acc.addEdge nid t k) g).invalidNodeIds =
        g.invalidNodeIds ∧
      (tids.foldl (fun acc t => acc.addEdge nid t k) g).incompleteNodeIds =
        g.incompleteNodeIds ∧
      (tids.foldl (fun acc t => acc.addEdge nid t k) g).unpredicatableNodeIds =
        g.unpredicatableNodeIds := by
  intro tids
  induction tids with
  | nil => simp
  | cons hd tl ih =>
    intro g
    rw [List.foldl_cons]
    rcases ih (g.addEdge nid hd k) with ⟨h1, h2, h3, h4⟩
    rcases addEdge_preserves g nid hd k with ⟨p1, p2, p3, _, _, _, p7⟩
    exact ⟨h1.trans p1, h2.trans p2, h3.trans p3, h4.trans p7⟩

theorem replaceNodesConnectedTo_edge_mem (g : RequestGraph) (n : RGNode)
    (targets : List RGNode) (k : EdgeKind) (x : String) :
    (∃ e ∈ (g.replaceNodesConnectedTo n targets k).edges,
        e.src = nodeId n ∧ e.kind = k ∧ e.dst = x) ↔
      x ∈ targets.map nodeId := by
  unfold RequestGraph.replaceNodesConnectedTo
  constructor
  · rintro ⟨e, he, hsrc, hkind, hdst⟩
    rw [foldl_addEdge_mem] at he
    rcases he with he | ⟨t, ht, rfl⟩
    · simp only [List.mem_filter, decide_not, Bool.not_eq_eq_eq_not,
        Bool.not_true, decide_eq_false_iff_not] at he
      rcases he with ⟨_, hcond⟩
      subst hdst
      by_contra hx
      exact hcond ⟨hsrc, hkind, hx⟩
    · exact hdst ▸ ht
  · intro hx
    refine ⟨⟨nodeId n, x, k⟩, ?_, rfl, rfl, rfl⟩
    rw [foldl_addEdge_mem]
    exact Or.inr ⟨x, hx, rfl⟩

theorem subrequestTargets_mem {g : RequestGraph} {id x : String} :
    x ∈ subrequestTargets g id ↔
      ∃ e ∈ g.edges, e.src = id ∧ e.kind = EdgeKind.subrequest ∧ e.dst = x := by
  simp only [subrequestTargets, List.mem_map, List.mem_filter,
    decide_eq_true_eq]
  constructor
  · rintro ⟨e, ⟨he, hs, hk⟩, rfl⟩
    exact ⟨e, he, hs, hk, rfl⟩
  · rintro ⟨e, he, hs, hk, rfl⟩
    exact ⟨e, ⟨he, hs, hk⟩, rfl⟩

theorem getRequestNode_ok_iff {g : RequestGraph} {id : String}
    {v : StoredRequest} :
    g.getRequestNode id = .ok v ↔ g.getNode id = some (.request v) := by
  unfold RequestGraph.getRequestNode
  cases h : g.getNode id with
  | none => simp
  | some n => cases n <;> simp

theorem getRequestNode_error_cases {g : RequestGraph} {id : String}
    {e : JsError} (h : g.getRequestNode id = .error e) :
    e = .nullthrowsFailed ∨ e = .invariantViolation := by
  unfold RequestGraph.getRequestNode at h
  cases hg : g.getNode id <;> rw [hg] at h
  · exact Or.inl (by injection h with h1; exact h1.symm)
  · rename_i n
    cases n <;> simp_all

theorem collectNodes_ok_map {g : RequestGraph} :
    ∀ {subs : List String} {ns : List RGNode},
      collectNodes g subs = .ok ns → ns.map nodeId = subs := by
  intro subs
  induction subs with
  | nil => intro ns h; simp [collectNodes] at h; simp [← h]
  | cons hd tl ih =>
    intro ns h
    unfold collectNodes at h
    cases hg : g.getNode hd <;> rw [hg] at h
    · exact absurd h (by simp)
    · rename_i n
      cases hr : collectNodes g tl <;> rw [hr] at h
      · exact absurd h (by simp [Except.map])
      · rename_i ns1
        simp only [Except.map] at h
        injection h with h1
        subst h1
        simp [ih hr, getNode_nodeId hg]

theorem collectNodes_error {g : RequestGraph} :
    ∀ {subs : List String} {e : JsError},
      collectNodes g subs = .error e → e = .nullthrowsFailed := by
  intro subs
  induction subs with
  | nil => intro e h; exact absurd h (by simp [collectNodes])
  | cons hd tl ih =>
    intro e h
    unfold collectNodes at h
    cases hg : g.getNode hd <;> rw [hg] at h
    · injection h with h1; exact h1.symm
    · cases hr : collectNodes g tl <;> rw [hr] at h
      · simp only [Except.map] at h
        injection h with h1
        exact h1 ▸ ih hr
      · exact absurd h (by simp [Except.map])

theorem replaceSubrequests_ok_targets {g : RequestGraph} {rid : String}
    {ns : List RGNode} {g1 : RequestGraph}
    (h : g.replaceSubrequests rid ns = (g1, .ok ())) :
    ∀ x, x ∈ subrequestTargets g1 rid ↔ x ∈ ns.map nodeId := by
  unfold RequestGraph.replaceSubrequests at h
  split at h
  · exact absurd (congrArg Prod.snd h) (by simp)
  · rename_i v hreq
    rw [getRequestNode_ok_iff] at hreq
    have hid : nodeId (RGNode.request v) = rid := getNode_nodeId hreq
    have hn : g.hasNode rid = true := hasNode_of_getNode hreq
    simp only [hn, not_true_eq_false, if_false, Bool.true_eq_false,
      Prod.mk.injEq, and_true] at h
    intro x
    rw [← h, subrequestTargets_mem, ← hid,
      replaceNodesConnectedTo_edge_mem g (RGNode.request v) ns .subrequest x]

theorem replaceSubrequests_error_cases {g : RequestGraph} {rid : String}
    {ns : List RGNode} {g1 : RequestGraph} {e : JsError}
    (h : g.replaceSubrequests rid ns = (g1, .error e)) :
    e = .nullthrowsFailed ∨ e = .invariantViolation := by
  unfold RequestGraph.replaceSubrequests at h
  split at h
  · rename_i e1 hreq
    have h2 : Except.error e1 = (Except.error e : Except JsError Unit) :=
      congrArg Prod.snd h
    injection h2 with h1
    exact h1 ▸ getRequestNode_error_cases hreq
  · exact absurd (congrArg Prod.snd h) (by simp)

theorem replaceSubrequestsByIds_ok_targets {t : Tracker} {id : String}
    {subs : List String} {t1 : Tracker}
    (h : t.replaceSubrequestsByIds id subs = (t1, .ok ())) :
    ∀ x, x ∈ subrequestTargets t1.graph id ↔ x ∈ subs := by
  unfold Tracker.replaceSubrequestsByIds at h
  split at h
  · exact absurd (congrArg Prod.snd h) (by simp)
  · rename_i ns hc
    unfold Tracker.onGraph at h
    rcases hrep : t.graph.replaceSubrequests id ns with ⟨g2, r2⟩
    simp only [hrep] at h
    cases r2 with
    | error e => exact absurd (congrArg Prod.snd h) (by simp)
    | ok u =>
      have hgr : ({ t with graph := g2 } : Tracker) = t1 := congrArg Prod.fst h
      intro x
      rw [← hgr]
      have h3 := replaceSubrequests_ok_targets hrep x
      rw [show ({ t with graph := g2 } : Tracker).graph = g2 from rfl, h3,
        collectNodes_ok_map hc]

theorem replaceSubrequestsByIds_error_cases {t : Tracker} {id : String}
    {subs : List String} {t1 : Tracker} {e : JsError}
    (h : t.replaceSubrequestsByIds id subs = (t1, .error e)) :
    e = .nullthrowsFailed ∨ e = .invariantViolation := by
  unfold Tracker.replaceSubrequestsByIds at h
  split at h
  · rename_i e1 hc
    have h2 : Except.error e1 = (Except.error e : Except JsError Unit) :=
      congrArg Prod.snd h
    injection h2 with h1
    exact Or.inl (h1 ▸ collectNodes_error hc)
  · rename_i ns hc
    unfold Tracker.onGraph at h
    rcases hrep : t.graph.replaceSubrequests id ns with ⟨g2, r2⟩
    simp only [hrep] at h
    cases r2 with
    | ok u => exact absurd (congrArg Prod.snd h) (by simp)
    | error e2 =>
      have h2 : Except.error e2 = (Except.error e : Except JsError Unit) :=
        congrArg Prod.snd h
      injection h2 with h1
      exact h1 ▸ replaceSubrequests_error_cases hrep

/-- C7 auxiliary: on the cyclic two-request graph the invalidation walk
starting at either node exhausts any amount of fuel, whatever the invalid set
(the only component it changes). -/
theorem c7_aux :
    ∀ (fuel : Nat) (inv : List String),
      (RequestGraph.invalidateWork fuel (c7Graph inv) [c7NodeA]).2 =
        .error .outOfFuel ∧
      (RequestGraph.invalidateWork fuel (c7Graph inv) [c7NodeB]).2 =
        .error .outOfFuel := by
  intro fuel
  induction fuel with
  | zero => intro inv; exact ⟨rfl, rfl⟩
  | succ f ih =>
    intro inv
    constructor
    · have step : RequestGraph.invalidateWork (f + 1) (c7Graph inv) [c7NodeA] =
          RequestGraph.invalidateWork f (c7Graph (setInsert inv "A")) [c7NodeB] := by
        simp [RequestGraph.invalidateWork, c7Graph, c7NodeA, c7NodeB, c7Req,
          RequestGraph.hasNode, RequestGraph.getNodesConnectedTo,
          RequestGraph.getNode, nodeId, List.filter, List.filterMap]
      rw [step]
      exact (ih (setInsert inv "A")).2
    · have step : RequestGraph.invalidateWork (f + 1) (c7Graph inv) [c7NodeB] =
          RequestGraph.invalidateWork f (c7Graph (setInsert inv "B")) [c7NodeA] := by
        simp [RequestGraph.invalidateWork, c7Graph, c7NodeA, c7NodeB, c7Req,
          RequestGraph.hasNode, RequestGraph.getNodesConnectedTo,
          RequestGraph.getNode, nodeId, List.filter, List.filterMap]
      rw [step]
      exact (ih (setInsert inv "B")).1

/-- C7: `invalidateNode` does NOT terminate on a graph whose `subrequest`
relation is cyclic: on the two-request cycle `A ↔ B`, the walk (which carries
no visited set in the source) exhausts every fuel bound, i.e. the source
recursion `invalidateNode(A) → invalidateNode(B) → invalidateNode(A) → …`
never returns. -/
theorem c7_invalidateNode_diverges_on_cycle :
    ∀ fuel : Nat,
      (RequestGraph.invalidateNode fuel (c7Graph []) c7NodeA).2 =
        .error .outOfFuel :=
  fun fuel => (c7_aux fuel []).1

/-- C5 (amended): `respondToFSEvents` reports whether the invalid set is
non-empty AFTER processing the batch — not whether this call invalidated
anything: whenever it returns normally, the boolean equals
`invalidNodeIds ≠ ∅` of the final state. -/
theorem c5_result_iff_invalid_nonempty :
    ∀ (fuel : Nat) (g : RequestGraph) (events : List FsEvent)
      (g1 : RequestGraph) (b : Bool),
      g.respondToFSEvents fuel events = (g1, .ok b) →
      (b = true ↔ g1.invalidNodeIds ≠ []) := by
  intro fuel g events g1 b h
  unfold RequestGraph.respondToFSEvents at h
  rcases heg : RequestGraph.eventsGo fuel g events with ⟨g2, r⟩
  rw [heg] at h
  cases r with
  | error e => exact absurd (congrArg Prod.snd h) (by simp)
  | ok u =>
    have hg : g2 = g1 := congrArg Prod.fst h
    have hb : (Except.ok (decide (g2.invalidNodeIds ≠ [])) :
        Except JsError Bool) = .ok b := congrArg Prod.snd h
    injection hb with hb1
    subst hg
    rw [← hb1]
    simp

/-- C5 witness: the amended statement applied to the concrete state with one
previously-invalid request and the empty batch. -/
theorem c5_witness :
    true = true ↔ c5Tracker.graph.invalidNodeIds ≠ [] :=
  c5_result_iff_invalid_nonempty 1 c5Tracker.graph [] c5Tracker.graph true rfl

/-- C5 counterexample: the claim "for every state an empty event batch returns
false" fails — on a state with a previously-invalid request (started, then
rejected), `respondToFSEvents([])` returns `true`. -/
theorem c5_counterexample :
    (Tracker.respondToFSEvents 1 c5Tracker []).2 = .ok true ∧
    "R5" ∈ c5Tracker.graph.invalidNodeIds := by
  constructor
  · rfl
  · decide

/-- C3: the FS-event responder does NOT invalidate a request that declared
`invalidateOnFileCreate({fileName: "d/n", aboveFilePath: "/a/x.js"})` when
`/a/d/n` is created — although `basename("/a/d/n") = "n"`,
`basename(dirname("/a/d/n")) = "d"`, and `/a/x.js` lies inside
`dirname(dirname("/a/d/n")) = "/a"`, so the claim (and the spec) require the
responder's upward recursion to fire.  The run succeeds, the responder returns
`false` and leaves the tracker unchanged, and the request keeps its valid
result: the parent lookup `'file_name: ' + basename` (with a stray space)
never matches the `'file_name:' + name` ids, and the `dirname` edge direction
it checks is the reverse of the one the chain builder adds. -/
theorem c3_fileNameAbove_create_not_invalidated :
    (runRequestAux 9 emptyTracker c3Desc).res = .ok (.num 1) ∧
    JsPath.basename "/a/d/n" = "n" ∧
    JsPath.basename (JsPath.dirname "/a/d/n") = "d" ∧
    isDirectoryInside "/a/x.js" (JsPath.dirname (JsPath.dirname "/a/d/n")) =
      true ∧
    Tracker.respondToFSEvents 9 c3Tracker [⟨"/a/d/n", .create⟩] =
      (c3Tracker, .ok false) ∧
    c3Tracker.hasValidResult "R3" = true := by
  refine ⟨rfl, ?_, ?_, ?_, rfl, ?_⟩ <;> decide

/-- C4: `removeNode` on a request registered via `invalidateOnStartup` removes
the node, its edges and its id from the invalid/incomplete indices, but does
NOT purge it from `unpredicatableNodeIds` — and the next
`invalidateUnpredictableNodes` then throws on the dangling id. -/
theorem c4_removeNode_leaves_unpredicatable :
    "R4" ∈ c4Graph.unpredicatableNodeIds ∧
    c4Graph.hasNode "R4" = false ∧
    c4Graph.nodes = [] ∧
    c4Graph.edges = [] ∧
    c4Graph.invalidNodeIds = [] ∧
    c4Graph.incompleteNodeIds = [] ∧
    (RequestGraph.invalidateUnpredictableNodes 1 c4Graph).2 =
      .error .nullthrowsFailed := by
  refine ⟨?_, ?_, ?_, ?_, ?_, ?_, ?_⟩ <;> decide

/-- C6 counterexample: after the public operations `startRequest(R6)` then
`invalidateNode(R6)`, the id is in BOTH `incompleteNodeIds` and
`invalidNodeIds` — the sets are not disjoint. -/
theorem c6_counterexample :
    (RequestGraph.invalidateNode 2 c6Tracker.graph
        (.request ⟨"R6", "t", .undef, .undef⟩)).2 = .ok () ∧
    "R6" ∈ c6After.invalidNodeIds ∧
    "R6" ∈ c6After.incompleteNodeIds := by
  refine ⟨rfl, ?_, ?_⟩ <;> decide

/-- When `hasValidResult` holds, `runRequest` takes the memoized early-return
path. -/
theorem runGo_req_memoized {f : Nat} {t : Tracker} {desc : ReqDesc}
    (hvalid : t.hasValidResult desc.id = true) :
    (runGo (f + 1) t (.req desc)).memoized = true := by
  unfold runGo
  rw [if_pos hvalid]
  split <;> rfl

/-- One-level unfolding of a non-memoized `runRequest`: whatever the body did,
the call ends by running the `finally` clause on some intermediate tracker
`t3` with the recorded `subs`, and its outcome is determined by that clause's
result. -/
theorem runGo_req_not_memoized {f : Nat} {t : Tracker} {desc : ReqDesc}
    (hvalid : t.hasValidResult desc.id = false) :
    ∃ (t3 : Tracker) (subs : List String) (r3 : Except JsError JsVal),
      (∀ t4 u, t3.replaceSubrequestsByIds desc.id subs = (t4, .ok u) →
        runGo (f + 1) t (.req desc) = ⟨t4, subs, r3, false⟩) ∧
      (∀ t4 e, t3.replaceSubrequestsByIds desc.id subs = (t4, .error e) →
        runGo (f + 1) t (.req desc) = ⟨t4, subs, .error e, false⟩) := by
  have hrun : runGo (f + 1) t (.req desc) = runGo (f + 1) t (.req desc) := rfl
  conv at hrun => rhs; rw [runGo]
  rw [hvalid] at hrun
  simp only [Bool.false_eq_true, if_false] at hrun
  rcases hstart : t.startRequest ⟨desc.id, desc.rtype, desc.input, .undef⟩ with
    ⟨t1, r1⟩
  rw [hstart] at hrun
  dsimp only at hrun
  cases r1 with
  | error e =>
    dsimp only at hrun
    refine ⟨t1.rejectRequest desc.id, [], .error e, ?_, ?_⟩
    · intro t4 u hfin
      rw [hrun, hfin]
    · intro t4 e2 hfin
      rw [hrun, hfin]
  | ok u1 =>
    dsimp only at hrun
    rcases hbody : runGo f t1 (.acts desc.id desc.actions []) with
      ⟨t2, subs2, rbody, m2⟩
    rw [hbody] at hrun
    dsimp only at hrun
    cases rbody with
    | ok v =>
      dsimp only at hrun
      cases hsig : t2.signalAborted with
      | true =>
        simp only [hsig, if_true] at hrun
        refine ⟨t2.rejectRequest desc.id, subs2, .error .aborted, ?_, ?_⟩
        · intro t4 u hfin
          rw [hrun, hfin]
        · intro t4 e2 hfin
          rw [hrun, hfin]
      | false =>
        simp only [hsig, Bool.false_eq_true, if_false] at hrun
        refine ⟨t2.completeRequest desc.id, subs2, .ok desc.retVal, ?_, ?_⟩
        · intro t4 u hfin
          rw [hrun, hfin]
        · intro t4 e2 hfin
          rw [hrun, hfin]
    | error e =>
      dsimp only at hrun
      refine ⟨t2.rejectRequest desc.id, subs2, .error e, ?_, ?_⟩
      · intro t4 u hfin
        rw [hrun, hfin]
      · intro t4 e2 hfin
        rw [hrun, hfin]

/-- C2: after `runRequest` returns — body succeeded (possibly aborted) or
threw — the request's `subrequest` out-edge set equals exactly the ids
recorded in the per-run `subRequests` set (the ids passed to
`api.runRequest` during that run); in particular, when parent `P` runs child
`C` and `C` fails, `P`'s `subrequest` out-edges are exactly `{C}` and both
`P` and `C` are invalid. -/
theorem c2_subrequests_reconciled :
    (∀ (fuel : Nat) (t : Tracker) (desc : ReqDesc) (o : RunOut),
        runRequestAux fuel t desc = o → o.memoized = false →
        ((∃ v, o.res = .ok v) ∨ o.res = .error .requestFailed ∨
          o.res = .error .aborted) →
        ∀ x, x ∈ subrequestTargets o.tr.graph desc.id ↔ x ∈ o.subs) ∧
    (subrequestTargets c2Run.tr.graph "P" = ["C"] ∧ c2Run.subs = ["C"] ∧
      c2Run.res = .error .requestFailed ∧ c2Run.memoized = false ∧
      "P" ∈ c2Run.tr.graph.invalidNodeIds ∧
      "C" ∈ c2Run.tr.graph.invalidNodeIds) := by
  constructor
  · intro fuel t desc o ho hmemo hres
    cases fuel with
    | zero =>
      subst ho
      rcases hres with ⟨v, hv⟩ | hv | hv <;>
        exact absurd hv (by simp [runRequestAux, runGo])
    | succ f =>
      subst ho
      by_cases hvalid : t.hasValidResult desc.id = true
      · exfalso
        have h2 : (runGo (f + 1) t (.req desc)).memoized = false := hmemo
        rw [runGo_req_memoized hvalid] at h2
        exact absurd h2 (by simp)
      · have hv' : t.hasValidResult desc.id = false := by simpa using hvalid
        obtain ⟨t3, subs, r3, hok, herr⟩ :=
          @runGo_req_not_memoized f t desc hv'
        rcases hfin : t3.replaceSubrequestsByIds desc.id subs with ⟨t4, rfin⟩
        cases rfin with
        | ok u =>
          have heq : runRequestAux (f + 1) t desc =
              (⟨t4, subs, r3, false⟩ : RunOut) := hok t4 u hfin
          rw [heq]
          exact replaceSubrequestsByIds_ok_targets hfin
        | error e =>
          have heq : runRequestAux (f + 1) t desc =
              (⟨t4, subs, .error e, false⟩ : RunOut) := herr t4 e hfin
          rw [heq] at hres
          rcases replaceSubrequestsByIds_error_cases hfin with rfl | rfl <;>
            rcases hres with ⟨v, hv⟩ | hv | hv <;> simp at hv
  · refine ⟨?_, ?_, ?_, ?_, ?_, ?_⟩ <;> decide

/-- C2 witness: the general reconciliation statement applied to the concrete
parent/child failure scenario. -/
theorem c2_witness :
    ("C" ∈ subrequestTargets c2Run.tr.graph "P" ↔ "C" ∈ c2Run.subs) ∧
    ("X" ∈ subrequestTargets c2Run.tr.graph "P" ↔ "X" ∈ c2Run.subs) := by
  have hgen := c2_subrequests_reconciled.1 9 emptyTracker c2P c2Run rfl
    (by decide) (Or.inr (Or.inl (by decide)))
  exact ⟨hgen "C", hgen "X"⟩

/-- When `hasValidResult` is false, `runRequest` does not take the memoized
path. -/
theorem runGo_req_memoized_false {f : Nat} {t : Tracker} {desc : ReqDesc}
    (hvalid : t.hasValidResult desc.id = false) :
    (runGo (f + 1) t (.req desc)).memoized = false := by
  obtain ⟨t3, subs, r3, hok, herr⟩ := @runGo_req_not_memoized f t desc hvalid
  rcases hfin : t3.replaceSubrequestsByIds desc.id subs with ⟨t4, rfin⟩
  cases rfin with
  | ok u => rw [hok t4 u hfin]
  | error e => rw [herr t4 e hfin]

/-- C9 auxiliary: symbolic evaluation of the declaring run — when the current
value of `options.env[e]` is falsy, the Env node is created with the captured
value `""`. -/
theorem c9_run_eval (rid e : String) (envOpts : List (String × String))
    (h1 : rid ≠ "env:" ++ e)
    (hcap : jsOrEmptyString (alookup envOpts e) = "") :
    c9Run rid e envOpts = ⟨c9Final rid e envOpts, [], .ok .undef, false⟩ := by
  simp [c9Run, runRequestAux, runGo, c9Desc, c9Final, Tracker.mkEmpty,
    Tracker.hasValidResult, RequestGraph.empty, RequestGraph.hasNode,
    Tracker.startRequest, RequestGraph.addNode, RequestGraph.baseAddNode,
    nodeId, setInsert, setDelete, Tracker.onGraph,
    RequestGraph.invalidateOnEnvChange, RequestGraph.getRequestNode,
    RequestGraph.getNode, RequestGraph.hasEdge, RequestGraph.addEdge,
    Tracker.completeRequest, Tracker.replaceSubrequestsByIds, collectNodes,
    RequestGraph.replaceSubrequests, RequestGraph.replaceNodesConnectedTo,
    hcap, h1, ReqDesc.id, ReqDesc.rtype, ReqDesc.input, ReqDesc.retVal,
    ReqDesc.actions]

/-- C9: `api.invalidateOnEnvChange(e)` captures `options.env[e] || ''`, so an
undefined (or falsy) current value is stored as `""`; a later
`invalidateEnvNodes` with `e` still unset then compares `undefined !== ""`,
which holds, and invalidates the depending request even though the
environment never changed. -/
theorem c9_env_undefined_captured_empty_invalidates :
    ∀ (rid e : String) (envOpts envm : List (String × String)) (fuel : Nat),
      rid ≠ "env:" ++ e →
      (alookup envOpts e = none ∨ alookup envOpts e = some "") →
      alookup envm e = none →
      (c9Run rid e envOpts).res = .ok .undef ∧
      (c9Run rid e envOpts).tr.graph.getNode ("env:" ++ e) =
        some (.env e "") ∧
      (RequestGraph.invalidateEnvNodes (fuel + 1) (c9Run rid e envOpts).tr.graph
          envm).2 = .ok () ∧
      rid ∈ (RequestGraph.invalidateEnvNodes (fuel + 1)
          (c9Run rid e envOpts).tr.graph envm).1.invalidNodeIds := by
  intro rid e envOpts envm fuel h1 h2 h3
  have hcap : jsOrEmptyString (alookup envOpts e) = "" := by
    rcases h2 with h | h <;> simp [h, jsOrEmptyString]
  rw [c9_run_eval rid e envOpts h1 hcap]
  refine ⟨rfl, ?_, ?_, ?_⟩
  · simp [c9Final, RequestGraph.getNode, nodeId, h1]
  · simp [RequestGraph.invalidateEnvNodes, RequestGraph.invalidateEnvGo,
      c9Final, RequestGraph.getNode, nodeId, h1, h3, jsNeqOptStr,
      RequestGraph.getNodesConnectedTo, RequestGraph.invalidateWork,
      RequestGraph.hasNode, setInsert]
  · simp [RequestGraph.invalidateEnvNodes, RequestGraph.invalidateEnvGo,
      c9Final, RequestGraph.getNode, nodeId, h1, h3, jsNeqOptStr,
      RequestGraph.getNodesConnectedTo, RequestGraph.invalidateWork,
      RequestGraph.hasNode, setInsert]

/-- `addNode` never touches the invalid/incomplete/unpredictable indices. -/
theorem addNode_preserves_indices (g : RequestGraph) (n : RGNode) :
    (g.addNode n).invalidNodeIds = g.invalidNodeIds ∧
    (g.addNode n).incompleteNodeIds = g.incompleteNodeIds ∧
    (g.addNode n).unpredicatableNodeIds = g.unpredicatableNodeIds := by
  cases n <;> unfold RequestGraph.addNode RequestGraph.baseAddNode <;>
    dsimp only <;> split_ifs <;> simp

/-- `clearInvalidations` never touches the invalid/incomplete indices. -/
theorem clearInvalidations_preserves_indices (g : RequestGraph)
    (v : StoredRequest) :
    (g.clearInvalidations v).invalidNodeIds = g.invalidNodeIds ∧
    (g.clearInvalidations v).incompleteNodeIds = g.incompleteNodeIds := by
  unfold RequestGraph.clearInvalidations RequestGraph.replaceNodesConnectedTo
  simp

/-- `startRequest` either leaves the invalid/incomplete indices unchanged
(when it throws) or moves the request id into `incompleteNodeIds` and out of
`invalidNodeIds`. -/
theorem startRequest_sets {t : Tracker} {r : StoredRequest} {t1 : Tracker}
    {res : Except JsError Unit} (h : t.startRequest r = (t1, res)) :
    (t1.graph.incompleteNodeIds = t.graph.incompleteNodeIds ∧
      t1.graph.invalidNodeIds = t.graph.invalidNodeIds) ∨
    (t1.graph.incompleteNodeIds =
        setInsert t.graph.incompleteNodeIds r.id ∧
      t1.graph.invalidNodeIds = setDelete t.graph.invalidNodeIds r.id) := by
  unfold Tracker.startRequest at h
  dsimp only at h
  split at h
  · rename_i g e heq
    have hg : ({ t with graph := g } : Tracker) = t1 := congrArg Prod.fst h
    split at heq
    · exact absurd (congrArg Prod.snd heq) (by simp)
    · split at heq
      · rename_i e1 hreq
        have hgg : t.graph = g := congrArg Prod.fst heq
        refine Or.inl ?_
        rw [← hg, ← hgg]
        exact ⟨rfl, rfl⟩
      · exact absurd (congrArg Prod.snd heq) (by simp)
  · rename_i g u heq
    have hg : ({ t with graph :=
        { g with
          incompleteNodeIds := setInsert g.incompleteNodeIds r.id
          invalidNodeIds := setDelete g.invalidNodeIds r.id } } : Tracker) = t1 :=
      congrArg Prod.fst h
    refine Or.inr ?_
    rw [← hg]
    split at heq
    · have hgg : t.graph.addNode (RGNode.request r) = g :=
        congrArg Prod.fst heq
      rcases addNode_preserves_indices t.graph (RGNode.request r) with
        ⟨p1, p2, _⟩
      rw [← hgg]
      exact ⟨by rw [p2], by rw [p1]⟩
    · split at heq
      · exact absurd (congrArg Prod.snd heq) (by simp)
      · rename_i v hreq
        have hgg : t.graph.clearInvalidations v = g := congrArg Prod.fst heq
        rcases clearInvalidations_preserves_indices t.graph v with ⟨p1, p2⟩
        rw [← hgg]
        exact ⟨by rw [p2], by rw [p1]⟩

/-- C6 (amended): a request with a valid result is, by definition of
`hasValidResult`, in neither index; and `startRequest`, `completeRequest` and
`rejectRequest` each preserve disjointness of `incompleteNodeIds` and
`invalidNodeIds`.  Full disjointness after ARBITRARY public operations fails:
`invalidateNode` (and hence `respondToFSEvents`) can mark a still-incomplete
request invalid (see the counterexample). -/
theorem c6_amended :
    (∀ (t : Tracker) (id : String), t.hasValidResult id = true →
        id ∉ t.graph.invalidNodeIds ∧ id ∉ t.graph.incompleteNodeIds) ∧
    (∀ (t : Tracker) (r : StoredRequest) (t1 : Tracker)
        (res : Except JsError Unit), t.startRequest r = (t1, res) →
        (∀ x, x ∈ t.graph.incompleteNodeIds →
          x ∈ t.graph.invalidNodeIds → False) →
        (∀ x, x ∈ t1.graph.incompleteNodeIds →
          x ∈ t1.graph.invalidNodeIds → False)) ∧
    (∀ (t : Tracker) (id : String),
        (∀ x, x ∈ t.graph.incompleteNodeIds →
          x ∈ t.graph.invalidNodeIds → False) →
        (∀ x, x ∈ (t.completeRequest id).graph.incompleteNodeIds →
          x ∈ (t.completeRequest id).graph.invalidNodeIds → False)) ∧
    (∀ (t : Tracker) (id : String),
        (∀ x, x ∈ t.graph.incompleteNodeIds →
          x ∈ t.graph.invalidNodeIds → False) →
        (∀ x, x ∈ (t.rejectRequest id).graph.incompleteNodeIds →
          x ∈ (t.rejectRequest id).graph.invalidNodeIds → False)) := by
  refine ⟨?_, ?_, ?_, ?_⟩
  · intro t id h
    unfold Tracker.hasValidResult at h
    simp only [Bool.and_eq_true, decide_eq_true_eq] at h
    exact ⟨h.1.2, h.2⟩
  · intro t r t1 res h hd x hx1 hx2
    rcases startRequest_sets h with ⟨p1, p2⟩ | ⟨p1, p2⟩
    · rw [p1] at hx1
      rw [p2] at hx2
      exact hd x hx1 hx2
    · rw [p1, mem_setInsert] at hx1
      rw [p2, mem_setDelete] at hx2
      rcases hx1 with hx1 | rfl
      · exact hd x hx1 hx2.1
      · exact hx2.2 rfl
  · intro t id hd x hx1 hx2
    unfold Tracker.completeRequest at hx1 hx2
    dsimp only at hx1 hx2
    rw [mem_setDelete] at hx1 hx2
    exact hd x hx1.1 hx2.1
  · intro t id hd x
    unfold Tracker.rejectRequest
    dsimp only
    split
    · intro hx1 hx2
      dsimp only at hx1 hx2
      rw [mem_setDelete] at hx1
      rw [mem_setInsert] at hx2
      rcases hx2 with hx2 | rfl
      · exact hd x hx1.1 hx2
      · exact hx1.2 rfl
    · intro hx1 hx2
      dsimp only at hx1 hx2
      rw [mem_setDelete] at hx1
      exact hd x hx1.1 hx2

/-- C6 witness: the amended statement applied to concrete states — a request
with a valid result is in neither index, and each lifecycle operation applied
to a concrete disjoint state yields a disjoint state. -/
theorem c6_witness :
    ("V6" ∉ c6ValidTracker.graph.invalidNodeIds ∧
      "V6" ∉ c6ValidTracker.graph.incompleteNodeIds) ∧
    ("W6" ∈ c6StartTracker.1.graph.incompleteNodeIds →
      "W6" ∈ c6StartTracker.1.graph.invalidNodeIds → False) ∧
    ("W6" ∈ (Tracker.completeRequest emptyTracker "W6").graph.incompleteNodeIds →
      "W6" ∈ (Tracker.completeRequest emptyTracker "W6").graph.invalidNodeIds →
      False) ∧
    ("W6" ∈ (Tracker.rejectRequest emptyTracker "W6").graph.incompleteNodeIds →
      "W6" ∈ (Tracker.rejectRequest emptyTracker "W6").graph.invalidNodeIds →
      False) := by
  refine ⟨c6_amended.1 c6ValidTracker "V6" (by decide), ?_, ?_, ?_⟩
  · exact c6_amended.2.1 (Tracker.mkEmpty [] []) ⟨"W6", "t", .undef, .undef⟩
      c6StartTracker.1 c6StartTracker.2 rfl
      (fun x hx _ => (List.not_mem_nil x hx).elim) "W6"
  · exact c6_amended.2.2.1 emptyTracker "W6"
      (fun x hx _ => (List.not_mem_nil x hx).elim) "W6"
  · exact c6_amended.2.2.2 emptyTracker "W6"
      (fun x hx _ => (List.not_mem_nil x hx).elim) "W6"

/-- Replacing the node stored at `id` (with a node whose derived id is `id`)
makes lookup at `id` return the new node. -/
theorem find?_map_replace (id : String) (n1 : RGNode) (hid : nodeId n1 = id) :
    ∀ l : List RGNode,
      (l.find? (fun m => nodeId m = id)).isSome = true →
      ((l.map (fun m => if nodeId m = id then n1 else m)).find?
        (fun m => nodeId m = id)) = some n1 := by
  intro l
  induction l with
  | nil => simp
  | cons hd tl ih =>
    intro hsome
    by_cases hhd : nodeId hd = id
    · rw [List.map_cons, if_pos hhd]
      exact List.find?_cons_of_pos _ (by simp [hid])
    · rw [List.map_cons, if_neg hhd,
        List.find?_cons_of_neg _ (by simp [hhd])]
      rw [List.find?_cons_of_neg _ (by simp [hhd])] at hsome
      exact ih hsome

/-- Replacing the node stored at `id` leaves lookups at other ids unchanged. -/
theorem find?_map_replace_other (id j : String) (n1 : RGNode)
    (hid : nodeId n1 = id) (hj : j ≠ id) :
    ∀ l : List RGNode,
      ((l.map (fun m => if nodeId m = id then n1 else m)).find?
        (fun m => nodeId m = j)) = l.find? (fun m => nodeId m = j) := by
  intro l
  induction l with
  | nil => simp
  | cons hd tl ih =>
    by_cases hhd : nodeId hd = id
    · have hhdj : ¬nodeId hd = j := by rw [hhd]; exact fun hc => hj hc.symm
      have hn1j : ¬nodeId n1 = j := by rw [hid]; exact fun hc => hj hc.symm
      rw [List.map_cons, if_pos hhd,
        List.find?_cons_of_neg _ (by simp [hn1j]),
        List.find?_cons_of_neg _ (by simp [hhdj])]
      exact ih
    · by_cases hdj : nodeId hd = j
      · rw [List.map_cons, if_neg hhd,
          List.find?_cons_of_pos _ (by simp [hdj]),
          List.find?_cons_of_pos _ (by simp [hdj])]
      · rw [List.map_cons, if_neg hhd,
          List.find?_cons_of_neg _ (by simp [hdj]),
          List.find?_cons_of_neg _ (by simp [hdj])]
        exact ih

/-- Graph-level: replacing the value stored at `id` makes `getNode id` return
the new node. -/
theorem getNode_replaceNodeValue_self {g : RequestGraph} {id : String}
    {n1 : RGNode} (hid : nodeId n1 = id)
    (hsome : (g.getNode id).isSome = true) :
    (g.replaceNodeValue id n1).getNode id = some n1 := by
  unfold RequestGraph.getNode RequestGraph.replaceNodeValue at *
  exact find?_map_replace id n1 hid g.nodes hsome

/-- Graph-level: replacing the value stored at `id` leaves `getNode j` for
`j ≠ id` unchanged. -/
theorem getNode_replaceNodeValue_other {g : RequestGraph} {id j : String}
    {n1 : RGNode} (hid : nodeId n1 = id) (hj : j ≠ id) :
    (g.replaceNodeValue id n1).getNode j = g.getNode j := by
  unfold RequestGraph.getNode RequestGraph.replaceNodeValue
  exact find?_map_replace_other id j n1 hid hj g.nodes

/-- `addEdge` does not change node lookups. -/
theorem getNode_addEdge (g : RequestGraph) (a b : String) (k : EdgeKind)
    (id : String) : (g.addEdge a b k).getNode id = g.getNode id := by
  unfold RequestGraph.getNode
  rw [(addEdge_preserves g a b k).1]

/-- The edge just ensured by `addEdge` is present afterwards. -/
theorem hasEdge_addEdge_self (g : RequestGraph) (a b : String) (k : EdgeKind) :
    (g.addEdge a b k).hasEdge a b k = true := by
  rw [hasEdge_iff, mem_edges_addEdge]
  exact Or.inr rfl

/-- When the node already exists, `finishFileCreate` reduces to ensuring the
`invalidated_by_create` edge. -/
theorem finishFileCreate_eval {g1 : RequestGraph} {rid : String}
    {node : RGNode} (hn1 : g1.hasNode (nodeId node) = true) :
    g1.finishFileCreate rid node =
      (g1.addEdge rid (nodeId node) .invalidatedByCreate, .ok ()) := by
  unfold RequestGraph.finishFileCreate
  rw [hn1]
  simp only [not_true_eq_false, Bool.true_eq_false, if_false]
  by_cases he : g1.hasEdge rid (nodeId node) .invalidatedByCreate = true
  · rw [if_neg (by simp [he])]
    have h2 : g1.addEdge rid (nodeId node) .invalidatedByCreate = g1 := by
      unfold RequestGraph.addEdge
      rw [if_pos he]
    rw [h2]
  · rw [if_pos (by simp [he])]

/-- C8: when an ExtensionlessFile node for the path already exists,
`invalidateOnFileCreate({filePath, extensions})` succeeds, the node's
extension set afterwards is the union of its previous set and the new set,
and the `invalidated_by_create` edge from the request to the node exists
afterwards (union first, then ensure the edge). -/
theorem c8_extensions_union_then_edge :
    ∀ (g : RequestGraph) (rid fp : String) (old exts : List String)
      (v : StoredRequest),
      g.getNode rid = some (.request v) →
      g.getNode (extensionlessFileNodeId fp) =
        some (.extensionlessFile fp old) →
      (g.invalidateOnFileCreate rid (.extensions fp exts)).2 = .ok () ∧
      (g.invalidateOnFileCreate rid (.extensions fp exts)).1.getNode
          (extensionlessFileNodeId fp) =
        some (.extensionlessFile fp (jsSetUnion old exts)) ∧
      (∀ x, x ∈ jsSetUnion old exts ↔ x ∈ old ∨ x ∈ exts) ∧
      (g.invalidateOnFileCreate rid (.extensions fp exts)).1.hasEdge rid
          (extensionlessFileNodeId fp) .invalidatedByCreate = true := by
  intro g rid fp old exts v hreq hex
  have hreqok : g.getRequestNode rid = .ok v := getRequestNode_ok_iff.mpr hreq
  have hn : g.hasNode (extensionlessFileNodeId fp) = true :=
    hasNode_of_getNode hex
  have hmid : nodeId (RGNode.extensionlessFile fp (jsSetUnion old exts)) =
      extensionlessFileNodeId fp := rfl
  have hg1 : (g.replaceNodeValue (extensionlessFileNodeId fp)
        (.extensionlessFile fp (jsSetUnion old exts))).getNode
        (extensionlessFileNodeId fp) =
      some (.extensionlessFile fp (jsSetUnion old exts)) :=
    getNode_replaceNodeValue_self hmid (by rw [hex]; rfl)
  have hn1 : (g.replaceNodeValue (extensionlessFileNodeId fp)
        (.extensionlessFile fp (jsSetUnion old exts))).hasNode
        (nodeId (RGNode.extensionlessFile fp (jsSetUnion old exts))) = true := by
    rw [hmid]
    exact hasNode_of_getNode hg1
  have hstep : g.invalidateOnFileCreate rid (.extensions fp exts) =
      (g.replaceNodeValue (extensionlessFileNodeId fp)
          (.extensionlessFile fp (jsSetUnion old exts))).finishFileCreate rid
        (.extensionlessFile fp (jsSetUnion old exts)) := by
    unfold RequestGraph.invalidateOnFileCreate
    rw [hreqok]
    dsimp only [nodeId]
    rw [hn]
    simp only [reduceIte]
    rw [hex]
  refine ⟨?_, ?_, ?_, ?_⟩
  · rw [hstep, finishFileCreate_eval hn1]
  · rw [hstep, finishFileCreate_eval hn1]
    rw [show (nodeId (RGNode.extensionlessFile fp (jsSetUnion old exts))) =
      extensionlessFileNodeId fp from rfl]
    rw [getNode_addEdge]
    exact hg1
  · exact fun x => mem_jsSetUnion exts old x
  · rw [hstep, finishFileCreate_eval hn1]
    exact hasEdge_addEdge_self _ _ _ _

/-- C8 witness: the union-then-edge statement at a concrete graph whose
ExtensionlessFile node for `/src/foo` holds `{.ts}` and a re-declaration adds
`{.js}`. -/
theorem c8_witness :
    (c8Tracker.graph.invalidateOnFileCreate "R8"
        (.extensions "/src/foo" [".js"])).2 = .ok () ∧
    (c8Tracker.graph.invalidateOnFileCreate "R8"
        (.extensions "/src/foo" [".js"])).1.getNode
        (extensionlessFileNodeId "/src/foo") =
      some (.extensionlessFile "/src/foo" (jsSetUnion [".ts"] [".js"])) ∧
    (".js" ∈ jsSetUnion [".ts"] [".js"] ↔
      ".js" ∈ [".ts"] ∨ ".js" ∈ [".js"]) ∧
    (c8Tracker.graph.invalidateOnFileCreate "R8"
        (.extensions "/src/foo" [".js"])).1.hasEdge "R8"
        (extensionlessFileNodeId "/src/foo") .invalidatedByCreate = true := by
  have h := c8_extensions_union_then_edge c8Tracker.graph "R8" "/src/foo"
    [".ts"] [".js"] ⟨"R8", "t", .undef, .undef⟩ (by decide) (by decide)
  exact ⟨h.1, h.2.1, h.2.2.1 ".js", h.2.2.2⟩

/-- C10: `storeResult` never throws and is a silent no-op unless the id holds
a Request node: the edges and every auxiliary index set are always unchanged,
a missing or non-Request node leaves the tracker untouched, and on a Request
node only that node's `result` field changes (lookups at every other id are
unchanged). -/
theorem c10_storeResult_noop_or_result_only :
    ∀ (t : Tracker) (id : String) (v : JsVal),
      (t.storeResult id v).graph.edges = t.graph.edges ∧
      (t.storeResult id v).graph.invalidNodeIds = t.graph.invalidNodeIds ∧
      (t.storeResult id v).graph.incompleteNodeIds =
        t.graph.incompleteNodeIds ∧
      (t.storeResult id v).graph.globNodeIds = t.graph.globNodeIds ∧
      (t.storeResult id v).graph.envNodeIds = t.graph.envNodeIds ∧
      (t.storeResult id v).graph.optionNodeIds = t.graph.optionNodeIds ∧
      (t.storeResult id v).graph.unpredicatableNodeIds =
        t.graph.unpredicatableNodeIds ∧
      ((∀ r : StoredRequest, t.graph.getNode id ≠ some (.request r)) →
        t.storeResult id v = t) ∧
      (∀ r : StoredRequest, t.graph.getNode id = some (.request r) →
        (t.storeResult id v).graph.getNode id =
          some (.request { r with result := v }) ∧
        ∀ j, j ≠ id → (t.storeResult id v).graph.getNode j =
          t.graph.getNode j) := by
  intro t id v
  unfold Tracker.storeResult
  cases hg : t.graph.getNode id with
  | none =>
    refine ⟨rfl, rfl, rfl, rfl, rfl, rfl, rfl, fun _ => rfl, ?_⟩
    intro r hr
    exact absurd hr (by simp)
  | some n =>
    cases n with
    | request r0 =>
      have hid : r0.id = id := getNode_nodeId hg
      refine ⟨rfl, rfl, rfl, rfl, rfl, rfl, rfl, ?_, ?_⟩
      · intro hno
        exact absurd rfl (hno r0)
      · intro r hr
        injection hr with hr1
        injection hr1 with hr2
        subst hr2
        constructor
        · exact getNode_replaceNodeValue_self (by simpa [nodeId] using hid)
            (by rw [hg]; rfl)
        · intro j hj
          exact getNode_replaceNodeValue_other
            (by simpa [nodeId] using hid) hj
    | file p =>
      refine ⟨rfl, rfl, rfl, rfl, rfl, rfl, rfl, fun _ => rfl, ?_⟩
      intro r hr
      exact absurd hr (by simp)
    | glob p =>
      refine ⟨rfl, rfl, rfl, rfl, rfl, rfl, rfl, fun _ => rfl, ?_⟩
      intro r hr
      exact absurd hr (by simp)
    | extensionlessFile p ex =>
      refine ⟨rfl, rfl, rfl, rfl, rfl, rfl, rfl, fun _ => rfl, ?_⟩
      intro r hr
      exact absurd hr (by simp)
    | fileName nm =>
      refine ⟨rfl, rfl, rfl, rfl, rfl, rfl, rfl, fun _ => rfl, ?_⟩
      intro r hr
      exact absurd hr (by simp)
    | env k val =>
      refine ⟨rfl, rfl, rfl, rfl, rfl, rfl, rfl, fun _ => rfl, ?_⟩
      intro r hr
      exact absurd hr (by simp)
    | option k hsh =>
      refine ⟨rfl, rfl, rfl, rfl, rfl, rfl, rfl, fun _ => rfl, ?_⟩
      intro r hr
      exact absurd hr (by simp)

/-- C10 witness: the no-op and the mutate case at concrete states. -/
theorem c10_witness :
    (emptyTracker.storeResult "R10" (.num 7) = emptyTracker) ∧
    (c10Tracker.storeResult "R10" (.num 7)).graph.getNode "R10" =
      some (.request ⟨"R10", "t", .undef, .num 7⟩) ∧
    (c10Tracker.storeResult "R10" (.num 7)).graph.getNode "Z" =
      c10Tracker.graph.getNode "Z" := by
  have h1 := (c10_storeResult_noop_or_result_only emptyTracker "R10"
    (.num 7)).2.2.2.2.2.2.2.1 (fun r hr => Option.noConfusion hr)
  have h2 := (c10_storeResult_noop_or_result_only c10Tracker "R10"
    (.num 7)).2.2.2.2.2.2.2.2 ⟨"R10", "t", .undef, .undef⟩ (by decide)
  exact ⟨h1, h2.1, h2.2 "Z" (by decide)⟩

/-- C1 auxiliary: symbolic evaluation of the declaring run. -/
theorem c1_run_eval (rid p : String) (h : rid ≠ p) :
    c1Run rid p = ⟨c1Tracker rid p [], [], .ok (.num 42), false⟩ := by
  simp [c1Run, runRequestAux, runGo, c1Desc, c1Tracker, c1Graph, emptyTracker,
    Tracker.mkEmpty, Tracker.hasValidResult, RequestGraph.empty,
    RequestGraph.hasNode, Tracker.startRequest, RequestGraph.addNode,
    RequestGraph.baseAddNode, nodeId, setInsert, setDelete, Tracker.onGraph,
    RequestGraph.invalidateOnFileUpdate, RequestGraph.getRequestNode,
    RequestGraph.getNode, RequestGraph.hasEdge, RequestGraph.addEdge,
    Tracker.completeRequest, Tracker.replaceSubrequestsByIds, collectNodes,
    RequestGraph.replaceSubrequests, RequestGraph.replaceNodesConnectedTo, h,
    ReqDesc.id, ReqDesc.rtype, ReqDesc.input, ReqDesc.retVal, ReqDesc.actions]

/-- C1 auxiliary: node lookup in the scenario graph yields the request node,
the file node, or nothing. -/
theorem c1_getNode_cases (rid p : String) (inv : List String) (q : String) :
    (c1Graph rid p inv).getNode q =
      some (.request ⟨rid, "t", .undef, .undef⟩) ∨
    (c1Graph rid p inv).getNode q = some (.file p) ∨
    (c1Graph rid p inv).getNode q = none := by
  by_cases h1 : rid = q
  · exact Or.inl (by simp [RequestGraph.getNode, c1Graph, List.find?, nodeId, h1])
  · by_cases h2 : p = q
    · exact Or.inr (Or.inl
        (by simp [RequestGraph.getNode, c1Graph, List.find?, nodeId, h1, h2]))
    · exact Or.inr (Or.inr
        (by simp [RequestGraph.getNode, c1Graph, List.find?, nodeId, h1, h2]))

/-- C1 auxiliary: the invalidation walk from the request node marks exactly
the request id. -/
theorem c1_work_req (rid p : String) (fuel : Nat) (inv : List String) :
    RequestGraph.invalidateWork (fuel + 1) (c1Graph rid p inv)
        [.request ⟨rid, "t", .undef, .undef⟩] =
      (c1Graph rid p (setInsert inv rid), .ok ()) := by
  simp [RequestGraph.invalidateWork, c1Graph, RequestGraph.hasNode, nodeId,
    RequestGraph.getNodesConnectedTo, RequestGraph.getNode, List.filter]

/-- C1 auxiliary: one FS event keeps the graph in the scenario family, only
growing the invalid set, and the update event at `p` marks the request. -/
theorem c1_eventStep_family (rid p : String) (h : rid ≠ p) (fuel : Nat)
    (inv : List String) (ev : FsEvent) :
    ∃ inv2, RequestGraph.eventStep (fuel + 1) (c1Graph rid p inv) ev =
        (c1Graph rid p inv2, .ok ()) ∧
      (∀ x, x ∈ inv → x ∈ inv2) ∧
      (ev = ⟨p, .update⟩ → rid ∈ inv2) := by
  rcases ev with ⟨q, ty⟩
  by_cases hq1 : q = rid
  · subst hq1
    refine ⟨inv, ?_, fun x hx => hx, ?_⟩
    · cases ty <;>
        simp [RequestGraph.eventStep, RequestGraph.getNode, c1Graph,
          List.find?, nodeId, RequestGraph.getNodesConnectedTo, List.filter,
          RequestGraph.invalidateWork, Ne.symm h]
    · intro hev
      exact absurd (congrArg FsEvent.path hev) h
  · by_cases hq2 : q = p
    · subst hq2
      cases ty with
      | update =>
        refine ⟨setInsert inv rid, ?_, fun x hx => mem_setInsert.mpr (.inl hx),
          fun _ => mem_setInsert.mpr (.inr rfl)⟩
        simp [RequestGraph.eventStep, RequestGraph.getNode, c1Graph,
          List.find?, nodeId, RequestGraph.getNodesConnectedTo, List.filter,
          RequestGraph.invalidateWork, RequestGraph.hasNode, h, Ne.symm h]
      | create =>
        refine ⟨setInsert inv rid, ?_, fun x hx => mem_setInsert.mpr (.inl hx),
          ?_⟩
        · simp [RequestGraph.eventStep, RequestGraph.getNode, c1Graph,
            List.find?, nodeId, RequestGraph.getNodesConnectedTo, List.filter,
            RequestGraph.invalidateWork, RequestGraph.hasNode, h, Ne.symm h]
        · intro hev
          exact absurd (congrArg FsEvent.etype hev) (by simp)
      | delete =>
        refine ⟨inv, ?_, fun x hx => hx, ?_⟩
        · simp [RequestGraph.eventStep, RequestGraph.getNode, c1Graph,
            List.find?, nodeId, RequestGraph.getNodesConnectedTo, List.filter,
            RequestGraph.invalidateWork, h, Ne.symm h]
        · intro hev
          exact absurd (congrArg FsEvent.etype hev) (by simp)
    · have hq1' : ¬rid = q := fun hc => hq1 hc.symm
      have hq2' : ¬p = q := fun hc => hq2 hc.symm
      refine ⟨inv, ?_, fun x hx => hx, ?_⟩
      · cases ty with
        | update =>
          simp [RequestGraph.eventStep, RequestGraph.getNode, c1Graph,
            List.find?, nodeId, hq1', hq2']
        | delete =>
          simp [RequestGraph.eventStep, RequestGraph.getNode, c1Graph,
            List.find?, nodeId, hq1', hq2']
        | create =>
          have hqn : (c1Graph rid p inv).getNode q = none := by
            simp [RequestGraph.getNode, c1Graph, List.find?, nodeId, hq1', hq2']
          unfold RequestGraph.eventStep
          dsimp only
          rw [hqn]
          simp only [Option.isSome_none, Bool.false_eq_true, false_and,
            if_false, reduceIte]
          rcases c1_getNode_cases rid p inv
              (extensionlessFileNodeId
                (JsPath.sliceToNegEnd q (JsPath.extname q).length)) with
            hc | hc | hc <;>
            (rw [hc]; dsimp only;
             rcases c1_getNode_cases rid p inv
                 ("file_name:" ++ JsPath.basename q) with hf | hf | hf <;>
              (rw [hf]; dsimp only; simp [RequestGraph.globGo, c1Graph]))
      · intro hev
        exact absurd (congrArg FsEvent.path hev) (fun hc => hq2 hc)

/-- C1 auxiliary: a whole event batch keeps the graph in the scenario family,
only growing the invalid set; a batch containing the update event at `p`
leaves the request invalid. -/
theorem c1_eventsGo_family (rid p : String) (h : rid ≠ p) :
    ∀ (events : List FsEvent) (fuel : Nat) (inv : List String),
      ∃ inv2, RequestGraph.eventsGo (fuel + 1) (c1Graph rid p inv) events =
          (c1Graph rid p inv2, .ok ()) ∧
        (∀ x, x ∈ inv → x ∈ inv2) ∧
        ((⟨p, FsEventType.update⟩ : FsEvent) ∈ events → rid ∈ inv2) := by
  intro events
  induction events with
  | nil =>
    intro fuel inv
    exact ⟨inv, rfl, fun x hx => hx, by simp⟩
  | cons ev rest ih =>
    intro fuel inv
    obtain ⟨inv1, hstep, hmono1, hup1⟩ := c1_eventStep_family rid p h fuel inv ev
    obtain ⟨inv2, hgo, hmono2, hup2⟩ := ih fuel inv1
    refine ⟨inv2, ?_, fun x hx => hmono2 x (hmono1 x hx), ?_⟩
    · have hcons : RequestGraph.eventsGo (fuel + 1) (c1Graph rid p inv)
          (ev :: rest) =
          RequestGraph.eventsGo (fuel + 1) (c1Graph rid p inv1) rest := by
        conv => lhs; rw [RequestGraph.eventsGo]
        rw [hstep]
      rw [hcons, hgo]
    · intro hev
      rcases List.mem_cons.mp hev with rfl | hev2
      · exact hmono2 rid (hup1 rfl)
      · exact hup2 hev2

/-- C1: a request that declares `invalidateOnFileUpdate(p)` during a
successful run is invalidated by any FS-event batch containing
`{path: p, type: update}`: the responder returns `true`, `hasValidResult`
becomes false, and a subsequent `runRequest` does not take the memoized
path — it re-executes the body. -/
theorem c1_fileUpdate_invalidates_and_reruns :
    ∀ (rid p : String) (fuel : Nat) (es1 es2 : List FsEvent), rid ≠ p →
      (c1Run rid p).res = .ok (.num 42) ∧
      ∃ t2 : Tracker,
        Tracker.respondToFSEvents (fuel + 1) (c1Run rid p).tr
            (es1 ++ ⟨p, .update⟩ :: es2) = (t2, .ok true) ∧
        t2.hasValidResult rid = false ∧
        (runRequestAux (fuel + 1) t2 (c1Desc rid p)).memoized = false := by
  intro rid p fuel es1 es2 h
  rw [c1_run_eval rid p h]
  refine ⟨rfl, ?_⟩
  obtain ⟨inv2, hgo, hmono, hup⟩ :=
    c1_eventsGo_family rid p h (es1 ++ ⟨p, .update⟩ :: es2) fuel []
  have hrid : rid ∈ inv2 := hup (by simp)
  have hne : inv2 ≠ [] := by
    intro hc
    rw [hc] at hrid
    exact List.not_mem_nil rid hrid
  have hval : (c1Tracker rid p inv2).hasValidResult rid = false := by
    simp [Tracker.hasValidResult, c1Tracker, c1Graph, hrid]
  refine ⟨c1Tracker rid p inv2, ?_, hval, ?_⟩
  · unfold Tracker.respondToFSEvents RequestGraph.respondToFSEvents
    rw [show (c1Tracker rid p []).graph = c1Graph rid p [] from rfl, hgo]
    dsimp only
    simp [hne, c1Tracker, c1Graph]
  · exact runGo_req_memoized_false (f := fuel) hval

/-- C1 witness: the scenario at `R = "R1"`, `p = "/a/b.js"`, fuel 0, and the
singleton batch. -/
theorem c1_witness :
    (c1Run "R1" "/a/b.js").res = .ok (.num 42) ∧
    ∃ t2 : Tracker,
      Tracker.respondToFSEvents 1 (c1Run "R1" "/a/b.js").tr
          [⟨"/a/b.js", .update⟩] = (t2, .ok true) ∧
      t2.hasValidResult "R1" = false ∧
      (runRequestAux 1 t2 (c1Desc "R1" "/a/b.js")).memoized = false :=
  c1_fileUpdate_invalidates_and_reruns "R1" "/a/b.js" 0 [] [] (by decide)

/-- C9 witness: the concrete instance with `NODE_ENV` unset everywhere. -/
theorem c9_witness :
    (c9Run "R9" "NODE_ENV" []).res = .ok .undef ∧
    (c9Run "R9" "NODE_ENV" []).tr.graph.getNode "env:NODE_ENV" =
      some (.env "NODE_ENV" "") ∧
    (RequestGraph.invalidateEnvNodes 1 (c9Run "R9" "NODE_ENV" []).tr.graph
        []).2 = .ok () ∧
    "R9" ∈ (RequestGraph.invalidateEnvNodes 1
        (c9Run "R9" "NODE_ENV" []).tr.graph []).1.invalidNodeIds :=
  c9_env_undefined_captured_empty_invalidates "R9" "NODE_ENV" [] [] 0
    (by decide) (Or.inl (by decide)) (by decide)

end ParcelTracker
